import Mathlib

/-!
# tranx2: codec, filtering reader, writer, client and dump command

A shallow embedding of `tranx.go` and `client.go` (package `tranx2`) and of the loop of
`cmd/tranx2dump/main.go`, together with the parts of the Go standard library they call
(`encoding/hex`, `encoding/binary`, `strings.ToUpper`, `bytes.TrimLeft`,
`bufio.Reader.ReadLine`).

Conventions
* a byte is a `Nat` (a Go `byte` is a value below 256); a byte slice or a Go string is a
  `List Nat`;
* the unsigned Go integers are `Nat`, the conversions `byte(x)` are written `% 256`;
* a Go function returning `(value, error)` returns a pair whose second component is an
  `Option GoError` (`none` is Go's `nil` error), so that the value returned next to an error
  stays visible.
* the calls made to a handler and the output of a command are the list of what was called or
  written, in order; a loop that need not end takes a bound on its turns and returns `none`
  when the bound is used up.
-/

namespace Tranx2

/-! ## Errors -/

/-- The error values that reach a caller of the package. Errors are compared by value. -/
inductive GoError where
  /-- The value `io.EOF`. -/
  | EOF
  /-- Any other error reported by the byte source, identified by a number. -/
  | Source (code : Nat)
  /-- The value `hex.ErrLength`. -/
  | ErrLength
  /-- The value `bufio.ErrBufferFull`. -/
  | ErrBufferFull
  /-- The value `hex.InvalidByteError(b)`. -/
  | InvalidByteError (b : Nat)
  /-- The package variable `TransponderIDOverflow`. -/
  | TransponderIDOverflow
  /-- The package variable `MessageLenghtError`. -/
  | MessageLenghtError
  /-- A fresh error made by `fmt.Errorf(text)`. -/
  | Errorf (text : String)
  /-- The value `&UnmarshalError{Msg, Detail, Err}`. -/
  | UnmarshalError (Msg : List Nat) (Detail : String) (Err : GoError)
  deriving DecidableEq, Repr

/-! ## Constants (`tranx.go`, lines 14-23) -/

/-- The marker `'#'`. -/
def NoisePrefix : Nat := 35

/-- The marker `'$'`. -/
def PassingPrefix : Nat := 36

/-- The constant `^uint32(0) >> 8`. -/
def MaxTransponderID : Nat := (2 ^ 32 - 1) / 2 ^ 8

/-- Length of a passing message, without the terminator. -/
def passingMsgLength : Nat := 25

/-- Length of a noise message, without the terminator. -/
def noiseMsgLength : Nat := 5

/-- The record `Passing` (`tranx.go`, lines 28-35). -/
structure Passing where
  TransponderID : Nat
  PassingTicks : Nat
  Hits : Nat
  Strength : Nat
  Prefix : Nat
  Trailing : Nat
  deriving DecidableEq, Repr

/-- Every field of the record fits the Go type it is declared with. -/
def Passing.InRange (p : Passing) : Prop :=
  p.TransponderID < 2 ^ 32 ∧ p.PassingTicks < 2 ^ 32 ∧ p.Hits < 2 ^ 8 ∧
    p.Strength < 2 ^ 8 ∧ p.Prefix < 2 ^ 16 ∧ p.Trailing < 2 ^ 8

instance (p : Passing) : Decidable p.InRange := by
  unfold Passing.InRange; infer_instance

/-! ## Standard library -/

/-- The table `"0123456789abcdef"` of `encoding/hex`. -/
def hex.hextable : List Nat :=
  [48, 49, 50, 51, 52, 53, 54, 55, 56, 57, 97, 98, 99, 100, 101, 102]

/-- The function `hex.EncodeToString`: two characters per byte, `hextable[v>>4]` then
`hextable[v&0x0f]`. -/
def hex.EncodeToString : List Nat → List Nat
  | [] => []
  | v :: src => hex.hextable.getD (v / 16) 0 :: hex.hextable.getD (v % 16) 0 ::
      hex.EncodeToString src

/-- The value of one hexadecimal character, `none` for any other byte
(`fromHexChar` / `reverseHexTable` of `encoding/hex`). -/
def hex.fromHexChar (c : Nat) : Option Nat :=
  if 48 ≤ c ∧ c ≤ 57 then some (c - 48)
  else if 97 ≤ c ∧ c ≤ 102 then some (c - 97 + 10)
  else if 65 ≤ c ∧ c ≤ 70 then some (c - 65 + 10)
  else none

/-- The function `hex.DecodeString`: the bytes decoded before the first problem, and the
problem. A character that is no hexadecimal digit is reported before an odd length. -/
def hex.DecodeString : List Nat → List Nat × Option GoError
  | [] => ([], none)
  | [p] =>
    match hex.fromHexChar p with
    | none => ([], some (.InvalidByteError p))
    | some _ => ([], some .ErrLength)
  | p :: q :: src =>
    match hex.fromHexChar p with
    | none => ([], some (.InvalidByteError p))
    | some a =>
      match hex.fromHexChar q with
      | none => ([], some (.InvalidByteError q))
      | some b =>
        let out := hex.DecodeString src
        ((a * 16 + b) :: out.1, out.2)

/-- The function `strings.ToUpper` on one ASCII byte. -/
def strings.toUpperByte (c : Nat) : Nat :=
  if 97 ≤ c ∧ c ≤ 122 then c - 32 else c

/-- The function `strings.ToUpper` on an ASCII string. -/
def strings.ToUpper (s : List Nat) : List Nat := s.map strings.toUpperByte

/-- The function `bytes.TrimLeft(s, cutset)`: `s` without its leading bytes that occur in
`cutset`. -/
def bytes.TrimLeft (s cutset : List Nat) : List Nat :=
  s.dropWhile (fun b => cutset.contains b)

/-- The function `binary.BigEndian.Uint16`: `b[1] | b[0]<<8`. The callers pass two bytes. -/
def binary.BigEndian.Uint16 (b : List Nat) : Nat :=
  b.getD 1 0 + b.getD 0 0 * 2 ^ 8

/-- The function `binary.BigEndian.Uint32`: `b[3] | b[2]<<8 | b[1]<<16 | b[0]<<24`. The callers
pass four bytes. -/
def binary.BigEndian.Uint32 (b : List Nat) : Nat :=
  b.getD 3 0 + b.getD 2 0 * 2 ^ 8 + b.getD 1 0 * 2 ^ 16 + b.getD 0 0 * 2 ^ 24

/-- The Go slice expression `s[lo:hi]`, for `lo ≤ hi ≤ len(s)`. -/
def slice (s : List Nat) (lo hi : Nat) : List Nat := (s.take hi).drop lo

/-! ## Hexadecimal helpers (`tranx.go`, lines 229-275) -/

/-- The function `hexBytesToUint8`: one byte from two hexadecimal characters;
0 with the error of `hex.DecodeString` when that fails. -/
def hexBytesToUint8 (inp : List Nat) : Nat × Option GoError :=
  match hex.DecodeString inp with
  | (_, some err) => (0, some err)
  | (out, none) => (out.getD 0 0, none)

/-- The function `hexBytesToUint16`: a big-endian 16-bit value from four hexadecimal characters;
0 with the error of `hex.DecodeString` when that fails. -/
def hexBytesToUint16 (inp : List Nat) : Nat × Option GoError :=
  match hex.DecodeString inp with
  | (_, some err) => (0, some err)
  | (out, none) => (binary.BigEndian.Uint16 out, none)

/-- The function `hexBytesToUint24`: a big-endian 24-bit value from six hexadecimal characters,
decoded behind `"00"`;
0 with the error of `hex.DecodeString` when that fails. -/
def hexBytesToUint24 (inp : List Nat) : Nat × Option GoError :=
  match hex.DecodeString ([48, 48] ++ inp) with
  | (_, some err) => (0, some err)
  | (out, none) => (binary.BigEndian.Uint32 out, none)

/-- The function `hexBytesToUint32`: a big-endian 32-bit value from eight hexadecimal characters;
0 with the error of `hex.DecodeString` when that fails. -/
def hexBytesToUint32 (inp : List Nat) : Nat × Option GoError :=
  match hex.DecodeString inp with
  | (_, some err) => (0, some err)
  | (out, none) => (binary.BigEndian.Uint32 out, none)

/-- The function `uint8ToHexStr`: the two uppercase hexadecimal characters of the bytes of the
value, most significant byte first. -/
def uint8ToHexStr (inp : Nat) : List Nat :=
  strings.ToUpper (hex.EncodeToString [inp % 256])

/-- The function `uint16ToHexStr`: the four uppercase hexadecimal characters of the bytes of the
value, most significant byte first. -/
def uint16ToHexStr (inp : Nat) : List Nat :=
  strings.ToUpper (hex.EncodeToString [inp / 2 ^ 8 % 256, inp % 256])

/-- The function `uint24ToHexStr`: the six uppercase hexadecimal characters of the bytes of the
value, most significant byte first. -/
def uint24ToHexStr (inp : Nat) : List Nat :=
  strings.ToUpper (hex.EncodeToString [inp / 2 ^ 16 % 256, inp / 2 ^ 8 % 256, inp % 256])

/-- The function `uint32ToHexStr`: the eight uppercase hexadecimal characters of the bytes of the
value, most significant byte first. -/
def uint32ToHexStr (inp : Nat) : List Nat :=
  strings.ToUpper (hex.EncodeToString
    [inp / 2 ^ 24 % 256, inp / 2 ^ 16 % 256, inp / 2 ^ 8 % 256, inp % 256])

/-! ## Decoding (`tranx.go`, lines 85-168) -/

/-- The function `UnmarshalPassing`. The record is filled field by field and is returned as
it stands when a field fails. -/
def UnmarshalPassing (msg0 : List Nat) : Passing × Option GoError :=
  let rec0 : Passing := ⟨0, 0, 0, 0, 0, 0⟩
  let msg := bytes.TrimLeft msg0 [13, 10]
  if msg.length ≠ passingMsgLength then
    (rec0, some (.UnmarshalError msg ("message length " ++ toString msg.length)
      (.Errorf "invalid message length")))
  else
    let f1 := hexBytesToUint16 (slice msg 1 5)
    let rec1 := { rec0 with Prefix := f1.1 }
    match f1.2 with
    | some hexErr => (rec1, some (.UnmarshalError msg "failed to parse prefix" hexErr))
    | none =>
    let f2 := hexBytesToUint24 (slice msg 5 11)
    let rec2 := { rec1 with TransponderID := f2.1 }
    match f2.2 with
    | some hexErr => (rec2, some (.UnmarshalError msg "failed to parse transponder id" hexErr))
    | none =>
    let f3 := hexBytesToUint32 (slice msg 11 19)
    let rec3 := { rec2 with PassingTicks := f3.1 }
    match f3.2 with
    | some hexErr => (rec3, some (.UnmarshalError msg "failed to parse passing ticks" hexErr))
    | none =>
    let f4 := hexBytesToUint8 (slice msg 19 21)
    let rec4 := { rec3 with Hits := f4.1 }
    match f4.2 with
    | some hexErr => (rec4, some (.UnmarshalError msg "failed to parse hit" hexErr))
    | none =>
    let f5 := hexBytesToUint8 (slice msg 21 23)
    let rec5 := { rec4 with Strength := f5.1 }
    match f5.2 with
    | some hexErr => (rec5, some (.UnmarshalError msg "failed to parse strength" hexErr))
    | none =>
    let f6 := hexBytesToUint8 (slice msg 23 25)
    let rec6 := { rec5 with Trailing := f6.1 }
    match f6.2 with
    | some hexErr => (rec6, some (.UnmarshalError msg "failed to parse trailing" hexErr))
    | none => (rec6, none)

/-- The function `UnmarshalNoise`. -/
def UnmarshalNoise (msg0 : List Nat) : Nat × Option GoError :=
  let msg := bytes.TrimLeft msg0 [13, 10]
  if msg.length ≠ noiseMsgLength then
    (0, some (.UnmarshalError msg ("message length " ++ toString msg.length)
      (.Errorf "invalid message length")))
  else
    match hexBytesToUint16 (slice msg 1 noiseMsgLength) with
    | (_, some err) => (0, some (.UnmarshalError msg "failed to parse noise level" err))
    | (noise, none) => (noise, none)

/-! ## Encoding (`tranx.go`, lines 202-227) -/

/-- The function `MarshalPassing`; `none` in the first component is the `nil` slice. -/
def MarshalPassing (rec0 : Passing) : Option (List Nat) × Option GoError :=
  if rec0.TransponderID > MaxTransponderID then
    (none, some .TransponderIDOverflow)
  else
    (some ([PassingPrefix] ++ uint16ToHexStr rec0.Prefix ++ uint24ToHexStr rec0.TransponderID ++
      uint32ToHexStr rec0.PassingTicks ++ uint8ToHexStr rec0.Hits ++
      uint8ToHexStr rec0.Strength ++ uint8ToHexStr rec0.Trailing ++ [13, 10]), none)

/-- The function `MarshalNoise`. -/
def MarshalNoise (noise : Nat) : Option (List Nat) × Option GoError :=
  (some ([NoisePrefix] ++ uint16ToHexStr noise ++ [13, 10]), none)

/-! ## Writer (`tranx.go`, lines 170-200) -/

/-- An `io.Writer` with states of type `σ`: `Write` gives the next state, the count and the
error. -/
structure IoWriter (σ : Type) where
  Write : σ → List Nat → σ × Int × Option GoError

/-- The writer that appends to a byte buffer (`strings.Builder`, `bytes.Buffer`). -/
def bufferWriter : IoWriter (List Nat) where
  Write buf p := (buf ++ p, p.length, none)

/-- The method `Writer.WritePassing` over the writer `w` in state `s`. -/
def Writer.WritePassing {σ : Type} (w : IoWriter σ) (s : σ) (rec0 : Passing) :
    σ × Int × Option GoError :=
  match MarshalPassing rec0 with
  | (_, some err) => (s, 0, some err)
  | (msg, none) => w.Write s (msg.getD [])

/-- The method `Writer.WriteNoise` over the writer `w` in state `s`. -/
def Writer.WriteNoise {σ : Type} (w : IoWriter σ) (s : σ) (noise : Nat) :
    σ × Int × Option GoError :=
  match MarshalNoise noise with
  | (_, some err) => (s, 0, some err)
  | (msg, none) => w.Write s (msg.getD [])

/-- Calls `WritePassing` for each record in turn: the final state of the writer and the
results of the calls. -/
def Writer.writePassings {σ : Type} (w : IoWriter σ) :
    σ → List Passing → σ × List (Int × Option GoError)
  | s, [] => (s, [])
  | s, rec0 :: recs =>
    let res := Writer.WritePassing w s rec0
    let more := Writer.writePassings w res.1 recs
    (more.1, res.2 :: more.2)

/-! ## Reader (`tranx.go`, lines 37-70) -/

/-- A `bufio.Reader` over a byte source: `data` is what has not been read yet (buffered or
still in the source), and `err` is what the source answers once `data` is used up (`io.EOF`
at a clean end of stream), in a `Read` of its own that carries no data. -/
structure ReaderState where
  data : List Nat
  err : GoError
  deriving DecidableEq, Repr

/-- The size of the buffer made by `bufio.NewReader`. -/
def bufio.defaultBufSize : Nat := 4096

/-- The method `bufio.Reader.ReadSlice(delim)`: the bytes up to and including the first
`delim`; when the source fails first, all the bytes left, with its error; when the buffer
fills first, the whole buffer, with `ErrBufferFull`. -/
def bufio.ReadSlice (delim : Nat) (r : ReaderState) :
    (List Nat × Option GoError) × ReaderState :=
  let window := r.data.take bufio.defaultBufSize
  let before := window.takeWhile (fun b => b ≠ delim)
  if before.length < window.length then
    ((r.data.take (before.length + 1), none), { r with data := r.data.drop (before.length + 1) })
  else if r.data.length < bufio.defaultBufSize then
    ((r.data, some r.err), { r with data := [] })
  else
    ((window, some .ErrBufferFull), { r with data := r.data.drop bufio.defaultBufSize })

/-- The method `bufio.Reader.ReadLine`: the line without its end-of-line bytes, the flag
`isPrefix`, and the error. -/
def bufio.ReadLine (r : ReaderState) : (List Nat × Bool × Option GoError) × ReaderState :=
  match bufio.ReadSlice 10 r with
  | ((line, some .ErrBufferFull), r1) =>
    if line.length > 0 ∧ line.getLast? = some 13 then
      ((line.dropLast, true, none), { r1 with data := 13 :: r1.data })
    else
      ((line, true, none), r1)
  | ((line, err), r1) =>
    if line.length = 0 then
      (([], false, err), r1)
    else if line.getLast? = some 10 then
      let drop := if line.length > 1 ∧ line.dropLast.getLast? = some 13 then 2 else 1
      ((line.take (line.length - drop), false, none), r1)
    else
      ((line, false, none), r1)

/-- The loop of `Reader.ReadPassing`, at most `fuel` tests of its condition; `msg` is the
line read last. -/
def Reader.readPassingLoop :
    Nat → List Nat → ReaderState → Option ((Passing × Option GoError) × ReaderState)
  | 0, _, _ => none
  | fuel + 1, msg, r =>
    if msg.length = 0 ∨ msg.head? ≠ some PassingPrefix then
      match bufio.ReadLine r with
      | ((_, _, some err), r1) => some ((⟨0, 0, 0, 0, 0, 0⟩, some err), r1)
      | ((msg1, _, none), r1) => Reader.readPassingLoop fuel msg1 r1
    else
      some (UnmarshalPassing msg, r)

/-- The method `Reader.ReadPassing`. Every turn of the loop that goes on takes a byte from
the source, so `len(data) + 2` tests suffice. -/
def Reader.ReadPassing (r : ReaderState) : Option ((Passing × Option GoError) × ReaderState) :=
  Reader.readPassingLoop (r.data.length + 2) [] r

/-- The loop of `Reader.ReadNoise`, at most `fuel` tests of its condition. -/
def Reader.readNoiseLoop :
    Nat → List Nat → ReaderState → Option ((Nat × Option GoError) × ReaderState)
  | 0, _, _ => none
  | fuel + 1, msg, r =>
    if msg.length = 0 ∨ msg.head? ≠ some NoisePrefix then
      match bufio.ReadLine r with
      | ((_, _, some err), r1) => some ((0, some err), r1)
      | ((msg1, _, none), r1) => Reader.readNoiseLoop fuel msg1 r1
    else
      some (UnmarshalNoise msg, r)

/-- The method `Reader.ReadNoise`. -/
def Reader.ReadNoise (r : ReaderState) : Option ((Nat × Option GoError) × ReaderState) :=
  Reader.readNoiseLoop (r.data.length + 2) [] r

/-- Calls `ReadPassing` `n` times in a row: the results of the calls, in order, and the
state of the reader after the last one. -/
def Reader.readPassings :
    Nat → ReaderState → Option (List (Passing × Option GoError) × ReaderState)
  | 0, r => some ([], r)
  | n + 1, r =>
    match Reader.ReadPassing r with
    | none => none
    | some (res, r1) =>
      match Reader.readPassings n r1 with
      | none => none
      | some (more, r2) => some (res :: more, r2)

/-! ## Vocabulary of the statements -/

/-- The record with all six fields zero, the value of `var rec Passing`. -/
def Passing.zero : Passing := ⟨0, 0, 0, 0, 0, 0⟩

/-- A line without its leading run of `'\r'` and `'\n'` bytes. -/
def stripLeadingCRLF (msg : List Nat) : List Nat :=
  msg.dropWhile (fun b => b == 13 || b == 10)

/-- The byte is one of `0`-`9`, `a`-`f`, `A`-`F`. -/
def isHexDigit (c : Nat) : Bool :=
  (48 ≤ c && c ≤ 57) || (97 ≤ c && c ≤ 102) || (65 ≤ c && c ≤ 70)

/-- The byte is one of `0`-`9`, `A`-`F`. -/
def isUpperHexDigit (c : Nat) : Bool :=
  (48 ≤ c && c ≤ 57) || (65 ≤ c && c ≤ 70)

/-- The character of the hexadecimal digit `d`, uppercase: `"0123456789ABCDEF"[d]`. -/
def upperHexChar (d : Nat) : Nat :=
  [48, 49, 50, 51, 52, 53, 54, 55, 56, 57, 65, 66, 67, 68, 69, 70].getD d 0

/-- The `w` low hexadecimal digits of `n` as uppercase characters, most significant first
(so zero padded on the left). -/
def hexRender : Nat → Nat → List Nat
  | 0, _ => []
  | w + 1, n => upperHexChar (n / 16 ^ w % 16) :: hexRender w n

/-- The first record of the tests. -/
def testPassing1 : Passing := ⟨144831, 876011553, 53, 135, 2304, 0⟩

/-- The line `$09000235BF3436E021358700`, without terminator. -/
def testLine1 : List Nat :=
  [36, 48, 57, 48, 48, 48, 50, 51, 53, 66, 70, 51, 52, 51, 54, 69, 48, 50, 49, 51, 53, 56, 55,
    48, 48]

/-- The 25 bytes that `MarshalPassing` writes before the terminator. -/
def passingLine (rec0 : Passing) : List Nat :=
  [PassingPrefix] ++ uint16ToHexStr rec0.Prefix ++ uint24ToHexStr rec0.TransponderID ++
    uint32ToHexStr rec0.PassingTicks ++ uint8ToHexStr rec0.Hits ++
    uint8ToHexStr rec0.Strength ++ uint8ToHexStr rec0.Trailing

/-- The bytes that `WritePassing` writes for the records `recs`. -/
def passingStream : List Passing → List Nat
  | [] => []
  | rec0 :: recs => passingLine rec0 ++ 13 :: 10 :: passingStream recs

/-- The three records of `TestNewWriterPassings`. -/
def testPassings : List Passing :=
  [⟨144831, 876011553, 53, 135, 2304, 0⟩, ⟨144831, 876039133, 49, 135, 2304, 0⟩,
    ⟨144831, 876068524, 62, 136, 2304, 0⟩]

/-! ## The fields of a passing line -/

/-- The six fields of a passing line, in the order of the layout. -/
inductive Field where
  | Prefix
  | TransponderID
  | PassingTicks
  | Hits
  | Strength
  | Trailing
  deriving DecidableEq, Repr

/-- The first offset of the field. -/
def Field.lo : Field → Nat
  | .Prefix => 1
  | .TransponderID => 5
  | .PassingTicks => 11
  | .Hits => 19
  | .Strength => 21
  | .Trailing => 23

/-- The offset after the last one of the field. -/
def Field.hi : Field → Nat
  | .Prefix => 5
  | .TransponderID => 11
  | .PassingTicks => 19
  | .Hits => 21
  | .Strength => 23
  | .Trailing => 25

/-- The text by which an `UnmarshalError` names the field. -/
def Field.detail : Field → String
  | .Prefix => "failed to parse prefix"
  | .TransponderID => "failed to parse transponder id"
  | .PassingTicks => "failed to parse passing ticks"
  | .Hits => "failed to parse hit"
  | .Strength => "failed to parse strength"
  | .Trailing => "failed to parse trailing"

/-- The fields in the order of the layout. -/
def Field.all : List Field :=
  [.Prefix, .TransponderID, .PassingTicks, .Hits, .Strength, .Trailing]

/-- The first byte of `s` that is no hexadecimal digit. -/
def firstNonHex (s : List Nat) : Option Nat := s.find? (fun c => !isHexDigit c)

/-- The first field, in the order of the layout, whose bytes hold a byte that is no
hexadecimal digit. -/
def firstBadField (line : List Nat) : Option Field :=
  Field.all.find? (fun f => (firstNonHex (slice line f.lo f.hi)).isSome)

/-- The field whose bytes hold the offset `i`, for `1 ≤ i ≤ 24`. -/
def fieldAt (i : Nat) : Field :=
  if i < 5 then .Prefix
  else if i < 11 then .TransponderID
  else if i < 19 then .PassingTicks
  else if i < 21 then .Hits
  else if i < 23 then .Strength
  else .Trailing

/-- The line `$09M00235BF3036E021358700` of `TestNewReaderPassingErrors`. -/
def badPrefixLine : List Nat :=
  [36, 48, 57, 77, 48, 48, 50, 51, 53, 66, 70, 51, 48, 51, 54, 69, 48, 50, 49, 51, 53, 56, 55,
    48, 48]

/-- A line of 25 bytes that starts with `'X'`: `X09000235BF3436E021358700`. -/
def xLine : List Nat :=
  [88, 48, 57, 48, 48, 48, 50, 51, 53, 66, 70, 51, 52, 51, 54, 69, 48, 50, 49, 51, 53, 56, 55,
    48, 48]

/-! ## The value returned next to an error -/

/-- The line `$090002M5BF3036E021358700` of `TestNewReaderPassingErrors`. -/
def badTransponderLine : List Nat :=
  [36, 48, 57, 48, 48, 48, 50, 77, 53, 66, 70, 51, 48, 51, 54, 69, 48, 50, 49, 51, 53, 56, 55,
    48, 48]

/-- The value that `UnmarshalPassing` decodes for a field of a line of 25 bytes (0 when the
bytes of the field do not decode). -/
def fieldValue (line : List Nat) : Field → Nat
  | .Prefix => (hexBytesToUint16 (slice line 1 5)).1
  | .TransponderID => (hexBytesToUint24 (slice line 5 11)).1
  | .PassingTicks => (hexBytesToUint32 (slice line 11 19)).1
  | .Hits => (hexBytesToUint8 (slice line 19 21)).1
  | .Strength => (hexBytesToUint8 (slice line 21 23)).1
  | .Trailing => (hexBytesToUint8 (slice line 23 25)).1

/-- The record that holds the decoded value of every field that comes before `f` in the
layout, and 0 in `f` and in every field after it. -/
def recordBefore (line : List Nat) (f : Field) : Passing where
  TransponderID := if Field.TransponderID.lo < f.lo then fieldValue line .TransponderID else 0
  PassingTicks := if Field.PassingTicks.lo < f.lo then fieldValue line .PassingTicks else 0
  Hits := if Field.Hits.lo < f.lo then fieldValue line .Hits else 0
  Strength := if Field.Strength.lo < f.lo then fieldValue line .Strength else 0
  Prefix := if Field.Prefix.lo < f.lo then fieldValue line .Prefix else 0
  Trailing := if Field.Trailing.lo < f.lo then fieldValue line .Trailing else 0

/-- The error is one of the two kinds that `hex.DecodeString` returns. -/
def IsHexError (e : GoError) : Prop := e = .ErrLength ∨ ∃ b, e = .InvalidByteError b


/-- The record of the values decoded for all six fields of a line of 25 bytes. -/
def recordOfLine (line : List Nat) : Passing where
  TransponderID := fieldValue line .TransponderID
  PassingTicks := fieldValue line .PassingTicks
  Hits := fieldValue line .Hits
  Strength := fieldValue line .Strength
  Prefix := fieldValue line .Prefix
  Trailing := fieldValue line .Trailing

/-! ## Lines of a reader -/

/-- The state of the reader after `n` calls of `ReadLine`. -/
def Reader.afterLines : Nat → ReaderState → ReaderState
  | 0, r => r
  | n + 1, r => Reader.afterLines n (bufio.ReadLine r).2

/-- Successive calls of `ReadLine` on the reader `r` return the lines `ls`, in this order
and each with no error, and the call after them fails with the error `e`. -/
def Reader.Yields : ReaderState → List (List Nat) → GoError → Prop
  | r, [], e => (bufio.ReadLine r).1.2.2 = some e
  | r, l :: ls, e =>
    (bufio.ReadLine r).1.1 = l ∧ (bufio.ReadLine r).1.2.2 = none ∧
      Reader.Yields (bufio.ReadLine r).2 ls e

/-- The bytes of the lines `ls` on the wire: each line is followed by `"\r\n"`. -/
def wire : List (List Nat) → List Nat
  | [] => []
  | l :: ls => l ++ 13 :: 10 :: wire ls

/-- The line is not empty and its first byte is `'$'`. -/
def isPassingLine (l : List Nat) : Bool := l.head? == some PassingPrefix

/-- The line is not empty and its first byte is `'#'`. -/
def isNoiseLine (l : List Nat) : Bool := l.head? == some NoisePrefix

/-- The number of lines that a filtering read takes from the source when the source holds
the lines `ls`: those up to and including the first line that `p` accepts, and when there is
none all of them and the failing read after them. -/
def Reader.linesUsed (p : List Nat → Bool) : List (List Nat) → Nat
  | [] => 1
  | l :: ls => if p l then 1 else Reader.linesUsed p ls + 1

/-- The lines that `ReadLine` returns for the lines `ls` on the wire: a line of 4095 bytes
fills the buffer together with its `'\r'`, and is followed by an empty line. -/
def readerLines : List (List Nat) → List (List Nat)
  | [] => []
  | l :: ls =>
    if l.length + 1 < bufio.defaultBufSize then l :: readerLines ls
    else l :: [] :: readerLines ls

/-! ## Client (`client.go`, lines 12-75) -/

/-- A call of one of the three methods of `Tranx2Handler`. -/
inductive HandlerCall where
  | OnPassing (rec0 : Passing)
  | OnNoise (noise : Nat)
  | OnError (err : GoError)
  deriving DecidableEq, Repr

/-- The loop of `Client.Serve`, at most `fuel` turns: `calls` are the calls made to the
handler so far. The result is the calls made, the error returned and the state of the
reader. -/
def Client.serveLoop :
    Nat → ReaderState → List HandlerCall → Option (List HandlerCall × GoError × ReaderState)
  | 0, _, _ => none
  | fuel + 1, r, calls =>
    match bufio.ReadLine r with
    | ((_, _, some err), r1) => some (calls, err, r1)
    | ((line, _, none), r1) =>
      if line.length = 0 then
        Client.serveLoop fuel r1 calls
      else if line.head? = some NoisePrefix then
        match UnmarshalNoise line with
        | (_, some err) => Client.serveLoop fuel r1 (calls ++ [.OnError err])
        | (noise, none) => Client.serveLoop fuel r1 (calls ++ [.OnNoise noise])
      else if line.head? = some PassingPrefix then
        match UnmarshalPassing line with
        | (_, some err) => Client.serveLoop fuel r1 (calls ++ [.OnError err])
        | (rec0, none) => Client.serveLoop fuel r1 (calls ++ [.OnPassing rec0])
      else
        Client.serveLoop fuel r1 calls

/-- The method `Client.Serve` over the connection in state `r`. Every turn of the loop that
goes on takes a byte from the source, so `len(data) + 1` turns suffice. -/
def Client.Serve (r : ReaderState) : Option (List HandlerCall × GoError × ReaderState) :=
  Client.serveLoop (r.data.length + 1) r []

/-- The handler calls that one line stands for: none for an empty line or a line with
another first byte; for a line that starts with `'#'` the call `OnNoise` with the value of
`UnmarshalNoise`, or `OnError` with its error; for a line that starts with `'$'` the call
`OnPassing` with the record of `UnmarshalPassing`, or `OnError` with its error. -/
def dispatchLine : List Nat → List HandlerCall
  | [] => []
  | c :: t =>
    if c = 35 then
      match UnmarshalNoise (c :: t) with
      | (noise, none) => [.OnNoise noise]
      | (_, some err) => [.OnError err]
    else if c = 36 then
      match UnmarshalPassing (c :: t) with
      | (rec0, none) => [.OnPassing rec0]
      | (_, some err) => [.OnError err]
    else []

/-- The handler calls of the lines `ls`, line after line. -/
def dispatchAll : List (List Nat) → List HandlerCall
  | [] => []
  | l :: ls => dispatchLine l ++ dispatchAll ls

/-- The line starts with a marker and its decoder fails on it with the error `err`. -/
def FailsToDecode (l : List Nat) (err : GoError) : Prop :=
  (isNoiseLine l = true ∧ (UnmarshalNoise l).2 = some err) ∨
    (isPassingLine l = true ∧ (UnmarshalPassing l).2 = some err)

/-! ## The command `tranx2dump` (`cmd/tranx2dump/main.go`) -/

/-- What the command writes: a value given to the JSON encoder on standard output, or an
error message on standard error. -/
inductive DumpOutput where
  | EncodeNoise (noise : Nat)
  | EncodePassing (rec0 : Passing)
  | Stderr (err : GoError)
  deriving DecidableEq, Repr

/-- How the command ends: `os.Exit(code)`, or the run-time panic of an index out of range. -/
inductive DumpEnd where
  | Exit (code : Nat)
  | IndexOutOfRange
  deriving DecidableEq, Repr

/-- The loop of `main` of `tranx2dump`, at most `fuel` turns. The expression `line[0]` is
evaluated for every line read without error. -/
def tranx2dump.mainLoop :
    Nat → ReaderState → List DumpOutput → Option (List DumpOutput × DumpEnd)
  | 0, _, _ => none
  | fuel + 1, r, out =>
    match bufio.ReadLine r with
    | ((_, _, some _), _) => some (out, .Exit 1)
    | ((line, _, none), r1) =>
      match line.head? with
      | none => some (out, .IndexOutOfRange)
      | some c =>
        if c = NoisePrefix then
          match UnmarshalNoise line with
          | (_, some err) => tranx2dump.mainLoop fuel r1 (out ++ [.Stderr err])
          | (noise, none) => tranx2dump.mainLoop fuel r1 (out ++ [.EncodeNoise noise])
        else if c = PassingPrefix then
          match UnmarshalPassing line with
          | (_, some err) => tranx2dump.mainLoop fuel r1 (out ++ [.Stderr err])
          | (rec0, none) => tranx2dump.mainLoop fuel r1 (out ++ [.EncodePassing rec0])
        else
          tranx2dump.mainLoop fuel r1 out

/-- The function `main` of `tranx2dump` over standard input in state `r`. -/
def tranx2dump.main (r : ReaderState) : Option (List DumpOutput × DumpEnd) :=
  tranx2dump.mainLoop (r.data.length + 1) r []

/-- The input of `TestNewClient`:
`#0970\r\n$09000235BF3436E021358700\r\n\r\n$09000235BF3436\r\n#097j\r\n`. -/
def clientInput : List Nat :=
  [35, 48, 57, 55, 48, 13, 10,
    36, 48, 57, 48, 48, 48, 50, 51, 53, 66, 70, 51, 52, 51, 54, 69, 48, 50, 49, 51, 53, 56, 55,
    48, 48, 13, 10,
    13, 10,
    36, 48, 57, 48, 48, 48, 50, 51, 53, 66, 70, 51, 52, 51, 54, 13, 10,
    35, 48, 57, 55, 106, 13, 10]

/-- The five lines of `clientInput`. -/
def clientLines : List (List Nat) :=
  [[35, 48, 57, 55, 48], testLine1, [],
    [36, 48, 57, 48, 48, 48, 50, 51, 53, 66, 70, 51, 52, 51, 54], [35, 48, 57, 55, 106]]

instance Reader.decidableYields :
    ∀ (r : ReaderState) (ls : List (List Nat)) (e : GoError), Decidable (Reader.Yields r ls e)
  | r, [], e => inferInstanceAs (Decidable ((bufio.ReadLine r).1.2.2 = some e))
  | r, l :: ls, e =>
    have := Reader.decidableYields (bufio.ReadLine r).2 ls e
    inferInstanceAs (Decidable ((bufio.ReadLine r).1.1 = l ∧ (bufio.ReadLine r).1.2.2 = none ∧
      Reader.Yields (bufio.ReadLine r).2 ls e))

instance (l : List Nat) (err : GoError) : Decidable (FailsToDecode l err) := by
  unfold FailsToDecode; infer_instance

instance (e : GoError) : Decidable (IsHexError e) :=
  match e with
  | .ErrLength => isTrue (Or.inl rfl)
  | .InvalidByteError b => isTrue (Or.inr ⟨b, rfl⟩)
  | .EOF => isFalse (by simp [IsHexError])
  | .Source _ => isFalse (by simp [IsHexError])
  | .ErrBufferFull => isFalse (by simp [IsHexError])
  | .TransponderIDOverflow => isFalse (by simp [IsHexError])
  | .MessageLenghtError => isFalse (by simp [IsHexError])
  | .Errorf _ => isFalse (by simp [IsHexError])
  | .UnmarshalError _ _ _ => isFalse (by simp [IsHexError])

/-! ## Lemmas on the hexadecimal helpers -/

theorem upper_hextable (d : Nat) (h : d < 16) :
    strings.toUpperByte (hex.hextable.getD d 0) = upperHexChar d := by
  interval_cases d <;> rfl

theorem fromHexChar_upperHexChar (d : Nat) (h : d < 16) :
    hex.fromHexChar (upperHexChar d) = some d := by
  interval_cases d <;> rfl

theorem isUpperHexDigit_upperHexChar (d : Nat) (h : d < 16) :
    isUpperHexDigit (upperHexChar d) = true := by
  interval_cases d <;> rfl

theorem uint8ToHexStr_eq (n : Nat) :
    uint8ToHexStr n = [upperHexChar (n / 16 % 16), upperHexChar (n % 16)] := by
  have h1 : n % 256 / 16 = n / 16 % 16 := by omega
  have h2 : n % 256 % 16 = n % 16 := by omega
  simp only [uint8ToHexStr, hex.EncodeToString, strings.ToUpper, List.map_cons, List.map_nil]
  rw [upper_hextable _ (by omega), upper_hextable _ (by omega), h1, h2]

theorem uint16ToHexStr_eq (n : Nat) :
    uint16ToHexStr n = [upperHexChar (n / 4096 % 16), upperHexChar (n / 256 % 16),
      upperHexChar (n / 16 % 16), upperHexChar (n % 16)] := by
  have h1 : n / 2 ^ 8 % 256 / 16 = n / 4096 % 16 := by omega
  have h2 : n / 2 ^ 8 % 256 % 16 = n / 256 % 16 := by omega
  have h3 : n % 256 / 16 = n / 16 % 16 := by omega
  have h4 : n % 256 % 16 = n % 16 := by omega
  simp only [uint16ToHexStr, hex.EncodeToString, strings.ToUpper, List.map_cons, List.map_nil]
  rw [upper_hextable _ (by omega), upper_hextable _ (by omega), upper_hextable _ (by omega),
    upper_hextable _ (by omega), h1, h2, h3, h4]

theorem uint24ToHexStr_eq (n : Nat) :
    uint24ToHexStr n = [upperHexChar (n / 1048576 % 16), upperHexChar (n / 65536 % 16),
      upperHexChar (n / 4096 % 16), upperHexChar (n / 256 % 16),
      upperHexChar (n / 16 % 16), upperHexChar (n % 16)] := by
  have h1 : n / 2 ^ 16 % 256 / 16 = n / 1048576 % 16 := by omega
  have h2 : n / 2 ^ 16 % 256 % 16 = n / 65536 % 16 := by omega
  have h3 : n / 2 ^ 8 % 256 / 16 = n / 4096 % 16 := by omega
  have h4 : n / 2 ^ 8 % 256 % 16 = n / 256 % 16 := by omega
  have h5 : n % 256 / 16 = n / 16 % 16 := by omega
  have h6 : n % 256 % 16 = n % 16 := by omega
  simp only [uint24ToHexStr, hex.EncodeToString, strings.ToUpper, List.map_cons, List.map_nil]
  rw [upper_hextable _ (by omega), upper_hextable _ (by omega), upper_hextable _ (by omega),
    upper_hextable _ (by omega), upper_hextable _ (by omega), upper_hextable _ (by omega),
    h1, h2, h3, h4, h5, h6]

theorem uint32ToHexStr_eq (n : Nat) :
    uint32ToHexStr n = [upperHexChar (n / 268435456 % 16), upperHexChar (n / 16777216 % 16),
      upperHexChar (n / 1048576 % 16), upperHexChar (n / 65536 % 16),
      upperHexChar (n / 4096 % 16), upperHexChar (n / 256 % 16),
      upperHexChar (n / 16 % 16), upperHexChar (n % 16)] := by
  have h1 : n / 2 ^ 24 % 256 / 16 = n / 268435456 % 16 := by omega
  have h2 : n / 2 ^ 24 % 256 % 16 = n / 16777216 % 16 := by omega
  have h3 : n / 2 ^ 16 % 256 / 16 = n / 1048576 % 16 := by omega
  have h4 : n / 2 ^ 16 % 256 % 16 = n / 65536 % 16 := by omega
  have h5 : n / 2 ^ 8 % 256 / 16 = n / 4096 % 16 := by omega
  have h6 : n / 2 ^ 8 % 256 % 16 = n / 256 % 16 := by omega
  have h7 : n % 256 / 16 = n / 16 % 16 := by omega
  have h8 : n % 256 % 16 = n % 16 := by omega
  simp only [uint32ToHexStr, hex.EncodeToString, strings.ToUpper, List.map_cons, List.map_nil]
  rw [upper_hextable _ (by omega), upper_hextable _ (by omega), upper_hextable _ (by omega),
    upper_hextable _ (by omega), upper_hextable _ (by omega), upper_hextable _ (by omega),
    upper_hextable _ (by omega), upper_hextable _ (by omega),
    h1, h2, h3, h4, h5, h6, h7, h8]

theorem hexRender_two (n : Nat) :
    hexRender 2 n = [upperHexChar (n / 16 % 16), upperHexChar (n % 16)] := by
  simp [hexRender]

theorem hexRender_four (n : Nat) :
    hexRender 4 n = [upperHexChar (n / 4096 % 16), upperHexChar (n / 256 % 16),
      upperHexChar (n / 16 % 16), upperHexChar (n % 16)] := by
  simp [hexRender]

theorem hexRender_six (n : Nat) :
    hexRender 6 n = [upperHexChar (n / 1048576 % 16), upperHexChar (n / 65536 % 16),
      upperHexChar (n / 4096 % 16), upperHexChar (n / 256 % 16),
      upperHexChar (n / 16 % 16), upperHexChar (n % 16)] := by
  simp [hexRender]

theorem hexRender_eight (n : Nat) :
    hexRender 8 n = [upperHexChar (n / 268435456 % 16), upperHexChar (n / 16777216 % 16),
      upperHexChar (n / 1048576 % 16), upperHexChar (n / 65536 % 16),
      upperHexChar (n / 4096 % 16), upperHexChar (n / 256 % 16),
      upperHexChar (n / 16 % 16), upperHexChar (n % 16)] := by
  simp [hexRender]

theorem isUpperHexDigit_hexRender (w n c : Nat) (h : c ∈ hexRender w n) :
    isUpperHexDigit c = true := by
  induction w with
  | zero => simp [hexRender] at h
  | succ w ih =>
    simp only [hexRender, List.mem_cons] at h
    rcases h with h | h
    · rw [h]; exact isUpperHexDigit_upperHexChar _ (Nat.mod_lt _ (by norm_num))
    · exact ih h

theorem TrimLeft_crlf (msg : List Nat) :
    bytes.TrimLeft msg [13, 10] = stripLeadingCRLF msg := by
  unfold bytes.TrimLeft stripLeadingCRLF
  congr 1
  funext b
  simp only [List.contains, List.elem]
  cases b == 13 <;> cases b == 10 <;> rfl

theorem stripLeadingCRLF_head (msg : List Nat) :
    (stripLeadingCRLF msg).head? ≠ some 13 ∧ (stripLeadingCRLF msg).head? ≠ some 10 := by
  induction msg with
  | nil => simp [stripLeadingCRLF]
  | cons a msg ih =>
    simp only [stripLeadingCRLF, List.dropWhile_cons] at ih ⊢
    by_cases h : (a == 13 || a == 10) = true
    · rw [if_pos h]; exact ih
    · rw [if_neg h]
      simp only [Bool.or_eq_true, beq_iff_eq, not_or] at h
      simp [h.1, h.2]

theorem stripLeadingCRLF_idem (msg : List Nat) :
    stripLeadingCRLF (stripLeadingCRLF msg) = stripLeadingCRLF msg := by
  induction msg with
  | nil => rfl
  | cons a msg ih =>
    by_cases h : (a == 13 || a == 10) = true
    · simp only [stripLeadingCRLF, List.dropWhile_cons, if_pos h] at ih ⊢
      exact ih
    · simp only [stripLeadingCRLF, List.dropWhile_cons, if_neg h]

theorem UnmarshalPassing_strip (msg : List Nat) :
    UnmarshalPassing (stripLeadingCRLF msg) = UnmarshalPassing msg := by
  simp only [UnmarshalPassing, TrimLeft_crlf, stripLeadingCRLF_idem]

theorem UnmarshalNoise_strip (msg : List Nat) :
    UnmarshalNoise (stripLeadingCRLF msg) = UnmarshalNoise msg := by
  simp only [UnmarshalNoise, TrimLeft_crlf, stripLeadingCRLF_idem]

/-! ## Decoding what the encoder wrote -/

theorem DecodeString_two (a b : Nat) (ha : a < 16) (hb : b < 16) (src : List Nat) :
    hex.DecodeString (upperHexChar a :: upperHexChar b :: src) =
      ((a * 16 + b) :: (hex.DecodeString src).1, (hex.DecodeString src).2) := by
  rw [hex.DecodeString, fromHexChar_upperHexChar a ha, fromHexChar_upperHexChar b hb]

theorem hexBytesToUint8_uint8ToHexStr (n : Nat) (h : n < 2 ^ 8) :
    hexBytesToUint8 (uint8ToHexStr n) = (n, none) := by
  rw [uint8ToHexStr_eq, hexBytesToUint8, DecodeString_two _ _ (Nat.mod_lt _ (by norm_num))
    (Nat.mod_lt _ (by norm_num))]
  simp only [hex.DecodeString, List.getD_cons_zero, Prod.mk.injEq, and_true]
  omega

theorem hexBytesToUint16_uint16ToHexStr (n : Nat) (h : n < 2 ^ 16) :
    hexBytesToUint16 (uint16ToHexStr n) = (n, none) := by
  rw [uint16ToHexStr_eq, hexBytesToUint16, DecodeString_two _ _ (Nat.mod_lt _ (by norm_num))
    (Nat.mod_lt _ (by norm_num)), DecodeString_two _ _ (Nat.mod_lt _ (by norm_num))
    (Nat.mod_lt _ (by norm_num))]
  simp only [hex.DecodeString, binary.BigEndian.Uint16, List.getD_cons_zero,
    List.getD_cons_succ, Prod.mk.injEq, and_true]
  omega

theorem hexBytesToUint24_uint24ToHexStr (n : Nat) (h : n < 2 ^ 24) :
    hexBytesToUint24 (uint24ToHexStr n) = (n, none) := by
  have h0 : ([48, 48] : List Nat) = [upperHexChar 0, upperHexChar 0] := rfl
  rw [uint24ToHexStr_eq, hexBytesToUint24, h0, List.cons_append, List.cons_append,
    List.nil_append, DecodeString_two _ _ (by norm_num) (by norm_num),
    DecodeString_two _ _ (Nat.mod_lt _ (by norm_num)) (Nat.mod_lt _ (by norm_num)),
    DecodeString_two _ _ (Nat.mod_lt _ (by norm_num)) (Nat.mod_lt _ (by norm_num)),
    DecodeString_two _ _ (Nat.mod_lt _ (by norm_num)) (Nat.mod_lt _ (by norm_num))]
  simp only [hex.DecodeString, binary.BigEndian.Uint32, List.getD_cons_zero,
    List.getD_cons_succ, Prod.mk.injEq, and_true]
  omega

theorem hexBytesToUint32_uint32ToHexStr (n : Nat) (h : n < 2 ^ 32) :
    hexBytesToUint32 (uint32ToHexStr n) = (n, none) := by
  rw [uint32ToHexStr_eq, hexBytesToUint32,
    DecodeString_two _ _ (Nat.mod_lt _ (by norm_num)) (Nat.mod_lt _ (by norm_num)),
    DecodeString_two _ _ (Nat.mod_lt _ (by norm_num)) (Nat.mod_lt _ (by norm_num)),
    DecodeString_two _ _ (Nat.mod_lt _ (by norm_num)) (Nat.mod_lt _ (by norm_num)),
    DecodeString_two _ _ (Nat.mod_lt _ (by norm_num)) (Nat.mod_lt _ (by norm_num))]
  simp only [hex.DecodeString, binary.BigEndian.Uint32, List.getD_cons_zero,
    List.getD_cons_succ, Prod.mk.injEq, and_true]
  omega

theorem MarshalPassing_eq_passingLine (rec0 : Passing)
    (h : rec0.TransponderID ≤ MaxTransponderID) :
    MarshalPassing rec0 = (some (passingLine rec0 ++ [13, 10]), none) := by
  simp [MarshalPassing, passingLine, Nat.not_lt.mpr h]

theorem passingLine_length (rec0 : Passing) : (passingLine rec0).length = 25 := by
  simp [passingLine, uint16ToHexStr_eq, uint24ToHexStr_eq, uint32ToHexStr_eq, uint8ToHexStr_eq]

theorem passingLine_head (rec0 : Passing) :
    ∃ t, passingLine rec0 = PassingPrefix :: t ∧ 10 ∉ t := by
  refine ⟨_, by simp only [passingLine, List.singleton_append, List.cons_append]; rfl, ?_⟩
  have hd : ∀ d, upperHexChar (d % 16) ≠ 10 := by
    intro d
    have := Nat.mod_lt d (show 0 < 16 by norm_num)
    generalize d % 16 = e at this
    interval_cases e <;> decide
  simp only [uint16ToHexStr_eq, uint24ToHexStr_eq, uint32ToHexStr_eq, uint8ToHexStr_eq,
    List.nil_append, List.cons_append, List.mem_cons, List.mem_nil_iff, or_false, not_or]
  refine ⟨?_, ?_, ?_, ?_, ?_, ?_, ?_, ?_, ?_, ?_, ?_, ?_, ?_, ?_, ?_, ?_, ?_, ?_, ?_, ?_,
    ?_, ?_, ?_, ?_⟩ <;> exact fun h => hd _ h.symm

/-- Decoding the 25 bytes written for a record gives the record back. -/
theorem UnmarshalPassing_passingLine (rec0 : Passing) (hr : rec0.InRange)
    (h : rec0.TransponderID ≤ MaxTransponderID) :
    UnmarshalPassing (passingLine rec0) = (rec0, none) := by
  obtain ⟨_, h2, h3, h4, h5, h6⟩ := hr
  have h1 : rec0.TransponderID < 2 ^ 24 := by
    have : MaxTransponderID = 16777215 := by decide
    omega
  have e1 := hexBytesToUint16_uint16ToHexStr _ h5
  have e2 := hexBytesToUint24_uint24ToHexStr _ h1
  have e3 := hexBytesToUint32_uint32ToHexStr _ h2
  have e4 := hexBytesToUint8_uint8ToHexStr _ h3
  have e5 := hexBytesToUint8_uint8ToHexStr _ h4
  have e6 := hexBytesToUint8_uint8ToHexStr _ h6
  rw [uint16ToHexStr_eq] at e1
  rw [uint24ToHexStr_eq] at e2
  rw [uint32ToHexStr_eq] at e3
  rw [uint8ToHexStr_eq] at e4 e5 e6
  simp only [UnmarshalPassing, passingLine, uint16ToHexStr_eq, uint24ToHexStr_eq,
    uint32ToHexStr_eq, uint8ToHexStr_eq, bytes.TrimLeft, PassingPrefix, List.cons_append,
    List.nil_append, List.dropWhile_cons, List.contains, List.elem, slice, passingMsgLength,
    List.length_cons, List.length_nil, List.take_succ_cons, List.take_zero, List.drop_succ_cons,
    List.drop_zero, List.take_nil]
  simp [e1, e2, e3, e4, e5, e6]

/-! ## The codec: claims C1, C2, C4 to C7 -/

/-- C1, evaluated on the first record of the tests: `MarshalPassing` gives the 27 bytes
`$09000235BF3436E021358700\r\n`, and `UnmarshalPassing` applied to these 27 bytes does not
give the record back: it returns the zero record and the length error for 27 bytes. -/
theorem C1_unmarshal_of_marshal_passing :
    MarshalPassing testPassing1 = (some (testLine1 ++ [13, 10]), none) ∧
    UnmarshalPassing (testLine1 ++ [13, 10]) =
      (Passing.zero, some (.UnmarshalError (testLine1 ++ [13, 10]) "message length 27"
        (.Errorf "invalid message length"))) := by
  constructor <;> rfl

/-- C2, evaluated on the noise value 2416: `MarshalNoise` gives the 7 bytes `#0970\r\n`, and
`UnmarshalNoise` applied to these 7 bytes does not give 2416 back: it returns 0 and the
length error for 7 bytes. -/
theorem C2_unmarshal_of_marshal_noise :
    MarshalNoise 2416 = (some [35, 48, 57, 55, 48, 13, 10], none) ∧
    UnmarshalNoise [35, 48, 57, 55, 48, 13, 10] =
      (0, some (.UnmarshalError [35, 48, 57, 55, 48, 13, 10] "message length 7"
        (.Errorf "invalid message length"))) := by
  constructor <;> rfl

/-- C4: `MaxTransponderID` is `0x00FFFFFF`; `MarshalPassing` returns `TransponderIDOverflow`
exactly when the transponder id is above it; it then returns the nil slice, and
`WritePassing` over any writer in any state leaves that state as it is and returns count 0
and that error; with a transponder id within the bound no field makes it fail. -/
theorem C4_overflow_iff {σ : Type} (w : IoWriter σ) (s : σ) (rec0 : Passing) :
    MaxTransponderID = 0x00FFFFFF ∧
    ((MarshalPassing rec0).2 = some .TransponderIDOverflow ↔
      rec0.TransponderID > MaxTransponderID) ∧
    (rec0.TransponderID > MaxTransponderID →
      MarshalPassing rec0 = (none, some .TransponderIDOverflow) ∧
      Writer.WritePassing w s rec0 = (s, 0, some .TransponderIDOverflow)) ∧
    (rec0.TransponderID ≤ MaxTransponderID →
      (MarshalPassing rec0).2 = none ∧ (MarshalPassing rec0).1 ≠ none) := by
  refine ⟨by decide, ?_, ?_, ?_⟩
  · by_cases h : rec0.TransponderID > MaxTransponderID <;> simp [MarshalPassing, h]
  · intro h
    simp [Writer.WritePassing, MarshalPassing, h]
  · intro h
    simp [MarshalPassing, Nat.not_lt.mpr h]

/-- C4 at the record of `TestNewWriterErrors`, whose transponder id is `0xFFFFFFFF`. -/
theorem C4_overflow_iff_witness :
    MarshalPassing ⟨0xFFFFFFFF, 876011553, 53, 135, 2304, 0⟩ =
      (none, some .TransponderIDOverflow) ∧
    Writer.WritePassing bufferWriter [] ⟨0xFFFFFFFF, 876011553, 53, 135, 2304, 0⟩ =
      ([], 0, some .TransponderIDOverflow) :=
  (C4_overflow_iff bufferWriter [] ⟨0xFFFFFFFF, 876011553, 53, 135, 2304, 0⟩).2.2.1 (by decide)

/-- C5: for a record whose transponder id is at most `0xFFFFFF`, `MarshalPassing` returns no
error and 27 bytes: `'$'`, then the uppercase zero-padded hexadecimal digits, most significant
first, of Prefix (4), TransponderID (6), PassingTicks (8), Hits (2), Strength (2) and
Trailing (2) at offsets 1-4, 5-10, 11-18, 19-20, 21-22 and 23-24, each of these 24 bytes one
of `0`-`9`, `A`-`F`, then `0x0D 0x0A`. -/
theorem C5_marshal_passing_layout (rec0 : Passing) (h : rec0.TransponderID ≤ 0xFFFFFF) :
    ∃ b, MarshalPassing rec0 = (some b, none) ∧ b.length = 27 ∧
      slice b 0 1 = [0x24] ∧
      slice b 1 5 = hexRender 4 rec0.Prefix ∧
      slice b 5 11 = hexRender 6 rec0.TransponderID ∧
      slice b 11 19 = hexRender 8 rec0.PassingTicks ∧
      slice b 19 21 = hexRender 2 rec0.Hits ∧
      slice b 21 23 = hexRender 2 rec0.Strength ∧
      slice b 23 25 = hexRender 2 rec0.Trailing ∧
      slice b 25 27 = [0x0D, 0x0A] ∧
      (∀ c ∈ slice b 1 25, isUpperHexDigit c = true) := by
  have hmax : rec0.TransponderID ≤ MaxTransponderID := by
    have : MaxTransponderID = 16777215 := by decide
    omega
  refine ⟨_, MarshalPassing_eq_passingLine rec0 hmax, ?_⟩
  have hs : ∀ c ∈ hexRender 4 rec0.Prefix ++ hexRender 6 rec0.TransponderID ++
      hexRender 8 rec0.PassingTicks ++ hexRender 2 rec0.Hits ++ hexRender 2 rec0.Strength ++
      hexRender 2 rec0.Trailing, isUpperHexDigit c = true := by
    intro c hc
    simp only [List.mem_append] at hc
    rcases hc with ((((hc | hc) | hc) | hc) | hc) | hc <;>
      exact isUpperHexDigit_hexRender _ _ _ hc
  simp only [hexRender_two, hexRender_four, hexRender_six, hexRender_eight, List.cons_append,
    List.nil_append] at hs
  simp only [hexRender_two, hexRender_four, hexRender_six, hexRender_eight,
    passingLine, uint16ToHexStr_eq, uint24ToHexStr_eq, uint32ToHexStr_eq,
    uint8ToHexStr_eq, PassingPrefix, List.cons_append, List.nil_append, slice,
    List.length_cons, List.length_nil, List.take_succ_cons, List.take_zero,
    List.drop_succ_cons, List.drop_zero, List.take_nil, true_and]
  exact hs

/-- C5 at the first record of `TestNewWriterPassings`. -/
theorem C5_marshal_passing_layout_witness :
    ∃ b, MarshalPassing testPassing1 = (some b, none) ∧ b.length = 27 ∧
      slice b 0 1 = [0x24] ∧
      slice b 1 5 = hexRender 4 testPassing1.Prefix ∧
      slice b 5 11 = hexRender 6 testPassing1.TransponderID ∧
      slice b 11 19 = hexRender 8 testPassing1.PassingTicks ∧
      slice b 19 21 = hexRender 2 testPassing1.Hits ∧
      slice b 21 23 = hexRender 2 testPassing1.Strength ∧
      slice b 23 25 = hexRender 2 testPassing1.Trailing ∧
      slice b 25 27 = [0x0D, 0x0A] ∧
      (∀ c ∈ slice b 1 25, isUpperHexDigit c = true) :=
  C5_marshal_passing_layout testPassing1 (by decide)

/-- C6: `MarshalNoise` returns no error and 7 bytes: `'#'`, the 4 uppercase zero-padded
hexadecimal digits of the value, most significant first, then `0x0D 0x0A`. -/
theorem C6_marshal_noise_layout (n : Nat) :
    MarshalNoise n = (some ([0x23] ++ hexRender 4 n ++ [0x0D, 0x0A]), none) ∧
    ([0x23] ++ hexRender 4 n ++ [0x0D, 0x0A]).length = 7 ∧
    (∀ c ∈ hexRender 4 n, isUpperHexDigit c = true) := by
  refine ⟨?_, ?_, fun c hc => isUpperHexDigit_hexRender _ _ _ hc⟩
  · simp [MarshalNoise, NoisePrefix, uint16ToHexStr_eq, hexRender_four]
  · simp [hexRender_four]

theorem UnmarshalPassing_length (msg : List Nat) (h : (stripLeadingCRLF msg).length ≠ 25) :
    UnmarshalPassing msg = (Passing.zero, some (.UnmarshalError (stripLeadingCRLF msg)
      ("message length " ++ toString (stripLeadingCRLF msg).length)
      (.Errorf "invalid message length"))) := by
  simp only [UnmarshalPassing, TrimLeft_crlf, passingMsgLength]
  rw [if_pos h]
  rfl

theorem UnmarshalNoise_length (msg : List Nat) (h : (stripLeadingCRLF msg).length ≠ 5) :
    UnmarshalNoise msg = (0, some (.UnmarshalError (stripLeadingCRLF msg)
      ("message length " ++ toString (stripLeadingCRLF msg).length)
      (.Errorf "invalid message length"))) := by
  simp only [UnmarshalNoise, TrimLeft_crlf, noiseMsgLength]
  rw [if_pos h]

/-- C7: when the message without its leading run of `'\r'` and `'\n'` is not 25 bytes long,
`UnmarshalPassing` returns the length error (and the zero record), and when it is not 5
bytes long `UnmarshalNoise` returns the length error (and 0), whatever the bytes are. -/
theorem C7_length_error (msg : List Nat) :
    ((stripLeadingCRLF msg).length ≠ 25 →
      UnmarshalPassing msg = (Passing.zero, some (.UnmarshalError (stripLeadingCRLF msg)
        ("message length " ++ toString (stripLeadingCRLF msg).length)
        (.Errorf "invalid message length")))) ∧
    ((stripLeadingCRLF msg).length ≠ 5 →
      UnmarshalNoise msg = (0, some (.UnmarshalError (stripLeadingCRLF msg)
        ("message length " ++ toString (stripLeadingCRLF msg).length)
        (.Errorf "invalid message length")))) := by
  exact ⟨UnmarshalPassing_length msg, UnmarshalNoise_length msg⟩

/-- C7 at the 23-byte line `$09000235BF3436E0213587` of the tests, and at the noise line
`#MMM` behind a leading `"\r\n"`, whose four bytes after trimming hold no hexadecimal
digit. -/
theorem C7_length_error_witness :
    (UnmarshalPassing [36, 48, 57, 48, 48, 48, 50, 51, 53, 66, 70, 51, 52, 51, 54, 69, 48, 50,
        49, 51, 53, 56, 55] =
      (Passing.zero, some (.UnmarshalError [36, 48, 57, 48, 48, 48, 50, 51, 53, 66, 70, 51, 52,
        51, 54, 69, 48, 50, 49, 51, 53, 56, 55] "message length 23"
        (.Errorf "invalid message length")))) ∧
    (UnmarshalNoise [13, 10, 35, 77, 77, 77] =
      (0, some (.UnmarshalError [35, 77, 77, 77] "message length 4"
        (.Errorf "invalid message length")))) :=
  ⟨(C7_length_error [36, 48, 57, 48, 48, 48, 50, 51, 53, 66, 70, 51, 52, 51, 54, 69, 48, 50,
      49, 51, 53, 56, 55]).1 (by decide),
    (C7_length_error [13, 10, 35, 77, 77, 77]).2 (by decide)⟩

/-! ## Writer and reader: claim C3 -/

theorem takeWhile_ne_append (d : Nat) (l x : List Nat) (h : ∀ b ∈ l, b ≠ d) :
    (l ++ d :: x).takeWhile (fun b => decide (b ≠ d)) = l := by
  induction l with
  | nil => simp [List.takeWhile]
  | cons a l ih =>
    have ha : a ≠ d := h a (List.mem_cons_self _ _)
    have hl : ∀ b ∈ l, b ≠ d := fun b hb => h b (List.mem_cons_of_mem _ hb)
    rw [List.cons_append, List.takeWhile_cons, if_pos (by simpa using ha), ih hl]

/-- `ReadSlice` when the delimiter comes before the buffer is full. -/
theorem ReadSlice_found (d : Nat) (l rest : List Nat) (e : GoError)
    (h : ∀ b ∈ l, b ≠ d) (hl : l.length < bufio.defaultBufSize) :
    bufio.ReadSlice d ⟨l ++ d :: rest, e⟩ = ((l ++ [d], none), ⟨rest, e⟩) := by
  obtain ⟨k, hk⟩ : ∃ k, bufio.defaultBufSize = l.length + (k + 1) :=
    ⟨bufio.defaultBufSize - l.length - 1, by omega⟩
  have hw : (l ++ d :: rest).take bufio.defaultBufSize = l ++ d :: rest.take k := by
    rw [hk, List.take_append, List.take_succ_cons]
  have ht : (l ++ d :: rest).take (l.length + 1) = l ++ [d] := by
    rw [List.take_append, List.take_succ_cons, List.take_zero]
  have hd : (l ++ d :: rest).drop (l.length + 1) = rest := by
    rw [List.drop_append, List.drop_succ_cons, List.drop_zero]
  simp only [bufio.ReadSlice, hw, takeWhile_ne_append d l _ h, ht, hd]
  rw [if_pos (by simp)]

/-- `ReadLine` on a line that ends in `"\r\n"` and fits the buffer. -/
theorem ReadLine_crlf (line rest : List Nat) (e : GoError) (h : ∀ b ∈ line, b ≠ 10)
    (hl : line.length + 1 < bufio.defaultBufSize) :
    bufio.ReadLine ⟨line ++ 13 :: 10 :: rest, e⟩ = ((line, false, none), ⟨rest, e⟩) := by
  have hs : bufio.ReadSlice 10 ⟨line ++ 13 :: 10 :: rest, e⟩ =
      ((line ++ [13] ++ [10], none), ⟨rest, e⟩) := by
    have := ReadSlice_found 10 (line ++ [13]) rest e
      (by intro b hb
          rcases List.mem_append.mp hb with hb | hb
          · exact h b hb
          · simp at hb; omega)
      (by simp; omega)
    simpa using this
  simp only [bufio.ReadLine, hs]
  simp

/-- `ReadLine` once the source has nothing left. -/
theorem ReadLine_nil (e : GoError) (he : e ≠ .ErrBufferFull) :
    bufio.ReadLine ⟨[], e⟩ = (([], false, some e), ⟨[], e⟩) := by
  cases e <;> first | rfl | exact absurd rfl he

theorem ReadPassing_passingLine (rec0 : Passing) (hr : rec0.InRange)
    (h : rec0.TransponderID ≤ MaxTransponderID) (rest : List Nat) (e : GoError) :
    Reader.ReadPassing ⟨passingLine rec0 ++ 13 :: 10 :: rest, e⟩ =
      some ((rec0, none), ⟨rest, e⟩) := by
  obtain ⟨t, ht, hnl⟩ := passingLine_head rec0
  have hlen := passingLine_length rec0
  have hrl := ReadLine_crlf (passingLine rec0) rest e
    (by intro b hb
        rw [ht] at hb
        rcases List.mem_cons.mp hb with hb | hb
        · rw [hb]; decide
        · exact fun hb10 => hnl (hb10 ▸ hb))
    (by rw [hlen]; decide)
  unfold Reader.ReadPassing
  simp only [Reader.readPassingLoop, hrl, List.length_nil, true_or, if_true]
  rw [if_neg (by rw [hlen, ht]; simp)]
  rw [UnmarshalPassing_passingLine rec0 hr h]

theorem ReadPassing_nil (e : GoError) (he : e ≠ .ErrBufferFull) :
    Reader.ReadPassing ⟨[], e⟩ = some ((Passing.zero, some e), ⟨[], e⟩) := by
  simp [Reader.ReadPassing, Reader.readPassingLoop, ReadLine_nil e he, Passing.zero]

theorem writePassings_bufferWriter (recs : List Passing) (buf : List Nat)
    (h : ∀ r ∈ recs, r.TransponderID ≤ MaxTransponderID) :
    Writer.writePassings bufferWriter buf recs =
      (buf ++ passingStream recs, recs.map (fun _ => ((27 : Int), none))) := by
  induction recs generalizing buf with
  | nil => simp [Writer.writePassings, passingStream]
  | cons r recs ih =>
    have hr := h r (List.mem_cons_self _ _)
    have hw : Writer.WritePassing bufferWriter buf r =
        (buf ++ (passingLine r ++ [13, 10]), 27, none) := by
      simp [Writer.WritePassing, MarshalPassing_eq_passingLine r hr, bufferWriter,
        passingLine_length]
    simp only [Writer.writePassings, hw, ih _ (fun r hr => h r (List.mem_cons_of_mem _ hr)),
      passingStream, List.map_cons]
    simp

theorem readPassings_passingStream (recs : List Passing)
    (h : ∀ r ∈ recs, r.InRange ∧ r.TransponderID ≤ MaxTransponderID) :
    Reader.readPassings (recs.length + 1) ⟨passingStream recs, .EOF⟩ =
      some (recs.map (fun r => (r, none)) ++ [(Passing.zero, some .EOF)], ⟨[], .EOF⟩) := by
  induction recs with
  | nil => simp [Reader.readPassings, passingStream, ReadPassing_nil .EOF (by decide)]
  | cons r recs ih =>
    have hr := h r (List.mem_cons_self _ _)
    have ih1 := ih (fun r hr => h r (List.mem_cons_of_mem _ hr))
    simp only [List.length_cons, passingStream]
    rw [Reader.readPassings, ReadPassing_passingLine r hr.1 hr.2]
    simp only [ih1]
    simp

/-- C3: when records whose transponder ids are at most `0xFFFFFF` are written in order with
`WritePassing` to an empty byte buffer, every write returns 27 and no error, and a reader
over the bytes written, followed by a clean end of stream, returns in `len(recs) + 1` calls
of `ReadPassing` exactly the records, in order and with no error, and then `io.EOF`. -/
theorem C3_write_then_read (recs : List Passing)
    (h : ∀ r ∈ recs, r.InRange ∧ r.TransponderID ≤ 0xFFFFFF) :
    (Writer.writePassings bufferWriter [] recs).2 = recs.map (fun _ => ((27 : Int), none)) ∧
    Reader.readPassings (recs.length + 1)
        ⟨(Writer.writePassings bufferWriter [] recs).1, .EOF⟩ =
      some (recs.map (fun r => (r, none)) ++ [(Passing.zero, some .EOF)], ⟨[], .EOF⟩) := by
  have hmax : MaxTransponderID = 0xFFFFFF := by decide
  have h1 : ∀ r ∈ recs, r.InRange ∧ r.TransponderID ≤ MaxTransponderID := by
    intro r hr
    rw [hmax]
    exact h r hr
  rw [writePassings_bufferWriter recs [] (fun r hr => (h1 r hr).2)]
  exact ⟨rfl, by simpa using readPassings_passingStream recs h1⟩

/-- C3 at the three records of `TestNewWriterPassings`. -/
theorem C3_write_then_read_witness :
    (Writer.writePassings bufferWriter [] testPassings).2 =
      [(27, none), (27, none), (27, none)] ∧
    Reader.readPassings 4 ⟨(Writer.writePassings bufferWriter [] testPassings).1, .EOF⟩ =
      some ([(⟨144831, 876011553, 53, 135, 2304, 0⟩, none),
        (⟨144831, 876039133, 49, 135, 2304, 0⟩, none),
        (⟨144831, 876068524, 62, 136, 2304, 0⟩, none),
        (⟨0, 0, 0, 0, 0, 0⟩, some .EOF)], ⟨[], .EOF⟩) :=
  C3_write_then_read testPassings (by decide)

/-! ## Lines with and without the terminator: claim C10 -/

/-- C10, evaluated on the lines of the tests: `#0970` decodes to 2416 and
`$09000235BF3436E021358700` to the first record, but the same lines followed by `"\r\n"` do
not: both decoders return the length error (for 7 and for 27 bytes). -/
theorem C10_line_with_terminator :
    UnmarshalNoise [35, 48, 57, 55, 48] = (2416, none) ∧
    UnmarshalNoise ([35, 48, 57, 55, 48] ++ [13, 10]) =
      (0, some (.UnmarshalError [35, 48, 57, 55, 48, 13, 10] "message length 7"
        (.Errorf "invalid message length"))) ∧
    UnmarshalPassing testLine1 = (testPassing1, none) ∧
    UnmarshalPassing (testLine1 ++ [13, 10]) =
      (Passing.zero, some (.UnmarshalError (testLine1 ++ [13, 10]) "message length 27"
        (.Errorf "invalid message length"))) := by
  refine ⟨?_, ?_, ?_, ?_⟩ <;> rfl

/-! ## Fields that do not decode: claims C8 and C9 -/

theorem fromHexChar_of_nonHex (c : Nat) (h : isHexDigit c = false) :
    hex.fromHexChar c = none := by
  simp only [isHexDigit, Bool.or_eq_false_iff, Bool.and_eq_false_iff,
    decide_eq_false_iff_not] at h
  simp only [hex.fromHexChar]
  split_ifs <;> first | rfl | omega

theorem fromHexChar_of_isHex (c : Nat) (h : isHexDigit c = true) :
    ∃ v, hex.fromHexChar c = some v := by
  simp only [isHexDigit, Bool.or_eq_true, Bool.and_eq_true, decide_eq_true_eq] at h
  simp only [hex.fromHexChar]
  split_ifs
  · exact ⟨_, rfl⟩
  · exact ⟨_, rfl⟩
  · exact ⟨_, rfl⟩
  · omega

theorem firstNonHex_cons (c : Nat) (s : List Nat) :
    firstNonHex (c :: s) = if isHexDigit c = true then firstNonHex s else some c := by
  unfold firstNonHex
  cases h : isHexDigit c <;> simp [List.find?, h]

/-- A byte that is no hexadecimal digit makes `hex.DecodeString` fail, with the first such
byte in its error. -/
theorem DecodeString_bad : ∀ (s : List Nat) (c : Nat), firstNonHex s = some c →
    (hex.DecodeString s).2 = some (.InvalidByteError c)
  | [], c, h => by simp [firstNonHex] at h
  | [p], c, h => by
    rw [firstNonHex_cons] at h
    by_cases hp : isHexDigit p = true
    · simp [hp, firstNonHex] at h
    · rw [if_neg hp] at h
      cases h
      simp only [Bool.not_eq_true] at hp
      simp [hex.DecodeString, fromHexChar_of_nonHex p hp]
  | p :: q :: src, c, h => by
    rw [firstNonHex_cons] at h
    by_cases hp : isHexDigit p = true
    · obtain ⟨a, ha⟩ := fromHexChar_of_isHex p hp
      rw [if_pos hp, firstNonHex_cons] at h
      by_cases hq : isHexDigit q = true
      · obtain ⟨b, hb⟩ := fromHexChar_of_isHex q hq
        rw [if_pos hq] at h
        simp only [hex.DecodeString, ha, hb]
        exact DecodeString_bad src c h
      · rw [if_neg hq] at h
        cases h
        simp only [Bool.not_eq_true] at hq
        simp [hex.DecodeString, ha, fromHexChar_of_nonHex q hq]
    · rw [if_neg hp] at h
      cases h
      simp only [Bool.not_eq_true] at hp
      simp [hex.DecodeString, fromHexChar_of_nonHex p hp]

/-- An even number of hexadecimal digits makes `hex.DecodeString` succeed. -/
theorem DecodeString_good : ∀ (s : List Nat), firstNonHex s = none → s.length % 2 = 0 →
    (hex.DecodeString s).2 = none
  | [], _, _ => rfl
  | [p], _, hl => by simp at hl
  | p :: q :: src, h, hl => by
    rw [firstNonHex_cons] at h
    by_cases hp : isHexDigit p = true
    · obtain ⟨a, ha⟩ := fromHexChar_of_isHex p hp
      rw [if_pos hp, firstNonHex_cons] at h
      by_cases hq : isHexDigit q = true
      · obtain ⟨b, hb⟩ := fromHexChar_of_isHex q hq
        rw [if_pos hq] at h
        simp only [hex.DecodeString, ha, hb]
        exact DecodeString_good src h (by simp only [List.length_cons] at hl; omega)
      · simp [hq] at h
    · simp [hp] at h

theorem hexBytesToUint8_snd (s : List Nat) :
    (hexBytesToUint8 s).2 = (hex.DecodeString s).2 := by
  unfold hexBytesToUint8
  split <;> simp_all

theorem hexBytesToUint16_snd (s : List Nat) :
    (hexBytesToUint16 s).2 = (hex.DecodeString s).2 := by
  unfold hexBytesToUint16
  split <;> simp_all

theorem hexBytesToUint24_snd (s : List Nat) :
    (hexBytesToUint24 s).2 = (hex.DecodeString (48 :: 48 :: s)).2 := by
  unfold hexBytesToUint24
  split <;> simp_all

theorem hexBytesToUint32_snd (s : List Nat) :
    (hexBytesToUint32 s).2 = (hex.DecodeString s).2 := by
  unfold hexBytesToUint32
  split <;> simp_all

theorem firstNonHex_zeros (s : List Nat) : firstNonHex (48 :: 48 :: s) = firstNonHex s := by
  rw [firstNonHex_cons, firstNonHex_cons]
  rfl

theorem field_status8 (s : List Nat) (hl : s.length % 2 = 0) :
    (firstNonHex s = none ∧ (hexBytesToUint8 s).2 = none) ∨
    (∃ c, firstNonHex s = some c ∧ (hexBytesToUint8 s).2 = some (.InvalidByteError c)) := by
  rw [hexBytesToUint8_snd]
  rcases h : firstNonHex s with _ | c
  · exact Or.inl ⟨rfl, DecodeString_good s h hl⟩
  · exact Or.inr ⟨c, rfl, DecodeString_bad s c h⟩

theorem field_status16 (s : List Nat) (hl : s.length % 2 = 0) :
    (firstNonHex s = none ∧ (hexBytesToUint16 s).2 = none) ∨
    (∃ c, firstNonHex s = some c ∧ (hexBytesToUint16 s).2 = some (.InvalidByteError c)) := by
  rw [hexBytesToUint16_snd]
  rcases h : firstNonHex s with _ | c
  · exact Or.inl ⟨rfl, DecodeString_good s h hl⟩
  · exact Or.inr ⟨c, rfl, DecodeString_bad s c h⟩

theorem field_status24 (s : List Nat) (hl : s.length % 2 = 0) :
    (firstNonHex s = none ∧ (hexBytesToUint24 s).2 = none) ∨
    (∃ c, firstNonHex s = some c ∧ (hexBytesToUint24 s).2 = some (.InvalidByteError c)) := by
  rw [hexBytesToUint24_snd]
  rcases h : firstNonHex s with _ | c
  · refine Or.inl ⟨rfl, DecodeString_good _ ?_ ?_⟩
    · rw [firstNonHex_zeros]; exact h
    · simp only [List.length_cons]; omega
  · refine Or.inr ⟨c, rfl, DecodeString_bad _ c ?_⟩
    rw [firstNonHex_zeros]; exact h

theorem field_status32 (s : List Nat) (hl : s.length % 2 = 0) :
    (firstNonHex s = none ∧ (hexBytesToUint32 s).2 = none) ∨
    (∃ c, firstNonHex s = some c ∧ (hexBytesToUint32 s).2 = some (.InvalidByteError c)) := by
  rw [hexBytesToUint32_snd]
  rcases h : firstNonHex s with _ | c
  · exact Or.inl ⟨rfl, DecodeString_good s h hl⟩
  · exact Or.inr ⟨c, rfl, DecodeString_bad s c h⟩

theorem length_eq_25 (line : List Nat) (h : line.length = 25) :
    ∃ b0 b1 b2 b3 b4 b5 b6 b7 b8 b9 b10 b11 b12
      b13 b14 b15 b16 b17 b18 b19 b20 b21 b22 b23 b24,
      line = [b0, b1, b2, b3, b4, b5, b6, b7, b8, b9, b10, b11, b12,
      b13, b14, b15, b16, b17, b18, b19, b20, b21, b22, b23, b24] :=
  match line, h with
  | [b0, b1, b2, b3, b4, b5, b6, b7, b8, b9, b10, b11, b12,
    b13, b14, b15, b16, b17, b18, b19, b20, b21, b22, b23, b24], _ =>
    ⟨b0, b1, b2, b3, b4, b5, b6, b7, b8, b9, b10, b11, b12,
      b13, b14, b15, b16, b17, b18, b19, b20, b21, b22, b23, b24, rfl⟩

/-- What `UnmarshalPassing` answers on a line of 25 bytes that does not start with `'\r'` or
`'\n'`: no error when no field holds a byte that is no hexadecimal digit, and otherwise the
error that names the first such field and carries the first such byte of that field. -/
theorem UnmarshalPassing_fields (line : List Nat) (hlen : line.length = 25)
    (h13 : line.head? ≠ some 13) (h10 : line.head? ≠ some 10) :
    (firstBadField line = none ∧ (UnmarshalPassing line).2 = none) ∨
    (∃ f c, firstBadField line = some f ∧ firstNonHex (slice line f.lo f.hi) = some c ∧
      (UnmarshalPassing line).2 = some (.UnmarshalError line f.detail (.InvalidByteError c))) := by
  obtain ⟨b0, b1, b2, b3, b4, b5, b6, b7, b8, b9, b10, b11, b12,
    b13, b14, b15, b16, b17, b18, b19, b20, b21, b22, b23, b24,
    hline⟩ := length_eq_25 line hlen
  have htrim : bytes.TrimLeft line [13, 10] = line := by
    rw [hline] at h13 h10 ⊢
    simp only [List.head?_cons, ne_eq, Option.some.injEq] at h13 h10
    simp [bytes.TrimLeft, List.dropWhile, h13, h10]
  have l1 : (slice line 1 5).length % 2 = 0 := by simp [slice, hlen]
  have l2 : (slice line 5 11).length % 2 = 0 := by simp [slice, hlen]
  have l3 : (slice line 11 19).length % 2 = 0 := by simp [slice, hlen]
  have l4 : (slice line 19 21).length % 2 = 0 := by simp [slice, hlen]
  have l5 : (slice line 21 23).length % 2 = 0 := by simp [slice, hlen]
  have l6 : (slice line 23 25).length % 2 = 0 := by simp [slice, hlen]
  clear hline
  rcases field_status16 _ l1 with ⟨n1, e1⟩ | ⟨c, n1, e1⟩
  swap
  · exact Or.inr ⟨.Prefix, c, by simp [firstBadField, Field.all, Field.lo, Field.hi, n1],
      n1, by simp [UnmarshalPassing, htrim, hlen, passingMsgLength, Field.detail, e1]⟩
  rcases field_status24 _ l2 with ⟨n2, e2⟩ | ⟨c, n2, e2⟩
  swap
  · exact Or.inr ⟨.TransponderID, c,
      by simp [firstBadField, Field.all, Field.lo, Field.hi, n1, n2],
      n2, by simp [UnmarshalPassing, htrim, hlen, passingMsgLength, Field.detail, e1, e2]⟩
  rcases field_status32 _ l3 with ⟨n3, e3⟩ | ⟨c, n3, e3⟩
  swap
  · exact Or.inr ⟨.PassingTicks, c,
      by simp [firstBadField, Field.all, Field.lo, Field.hi, n1, n2, n3],
      n3, by simp [UnmarshalPassing, htrim, hlen, passingMsgLength, Field.detail, e1, e2, e3]⟩
  rcases field_status8 _ l4 with ⟨n4, e4⟩ | ⟨c, n4, e4⟩
  swap
  · exact Or.inr ⟨.Hits, c,
      by simp [firstBadField, Field.all, Field.lo, Field.hi, n1, n2, n3, n4],
      n4, by simp [UnmarshalPassing, htrim, hlen, passingMsgLength, Field.detail, e1, e2, e3,
        e4]⟩
  rcases field_status8 _ l5 with ⟨n5, e5⟩ | ⟨c, n5, e5⟩
  swap
  · exact Or.inr ⟨.Strength, c,
      by simp [firstBadField, Field.all, Field.lo, Field.hi, n1, n2, n3, n4, n5],
      n5, by simp [UnmarshalPassing, htrim, hlen, passingMsgLength, Field.detail, e1, e2, e3,
        e4, e5]⟩
  rcases field_status8 _ l6 with ⟨n6, e6⟩ | ⟨c, n6, e6⟩
  swap
  · exact Or.inr ⟨.Trailing, c,
      by simp [firstBadField, Field.all, Field.lo, Field.hi, n1, n2, n3, n4, n5, n6],
      n6, by simp [UnmarshalPassing, htrim, hlen, passingMsgLength, Field.detail, e1, e2, e3,
        e4, e5, e6]⟩
  exact Or.inl ⟨by simp [firstBadField, Field.all, Field.lo, Field.hi, n1, n2, n3, n4, n5, n6],
    by simp [UnmarshalPassing, htrim, hlen, passingMsgLength, e1, e2, e3, e4, e5, e6]⟩

/-- On a line of 25 bytes, no field is bad exactly when the bytes at offsets 1 to 24 are all
hexadecimal digits. -/
theorem firstBadField_eq_none_iff (line : List Nat) (hlen : line.length = 25) :
    firstBadField line = none ↔
      ∀ i, 1 ≤ i → i ≤ 24 → isHexDigit (line.getD i 0) = true := by
  obtain ⟨b0, b1, b2, b3, b4, b5, b6, b7, b8, b9, b10, b11, b12,
    b13, b14, b15, b16, b17, b18, b19, b20, b21, b22, b23, b24,
    hline⟩ := length_eq_25 line hlen
  subst hline
  constructor
  · intro hnone i hi1 hi2
    simp [firstBadField, Field.all, Field.lo, Field.hi, slice, firstNonHex_cons,
      firstNonHex] at hnone
    interval_cases i <;> simp_all
  · intro h
    have h1 := h 1; have h2 := h 2; have h3 := h 3; have h4 := h 4; have h5 := h 5
    have h6 := h 6; have h7 := h 7; have h8 := h 8; have h9 := h 9; have h10 := h 10
    have h11 := h 11; have h12 := h 12; have h13 := h 13; have h14 := h 14; have h15 := h 15
    have h16 := h 16; have h17 := h 17; have h18 := h 18; have h19 := h 19; have h20 := h 20
    have h21 := h 21; have h22 := h 22; have h23 := h 23; have h24 := h 24
    simp at h1 h2 h3 h4 h5 h6 h7 h8 h9 h10 h11 h12
    simp at h13 h14 h15 h16 h17 h18 h19 h20 h21 h22 h23 h24
    simp [firstBadField, Field.all, Field.lo, Field.hi, slice, firstNonHex_cons,
      firstNonHex, *]

/-- C8: on every message that is a line of 25 bytes once its leading `'\r'` and `'\n'` are
trimmed (the trimming comes before the layout, so the offsets are those of the trimmed line)
and that has a byte which is no hexadecimal digit at one of the offsets 1 to 24,
`UnmarshalPassing` fails with the error that names the first field, in the order of the
layout, whose bytes hold such a byte, and that carries the first such byte of the field. In
particular, on a line that starts with `'$'` and has hexadecimal digits at the offsets 1 to
24, putting a byte that is no hexadecimal digit at one of these offsets gives the error that
names the field holding the offset, and carries that byte. -/
theorem C8_first_bad_field :
    (∀ msg : List Nat, (stripLeadingCRLF msg).length = 25 →
      (∃ i, 1 ≤ i ∧ i ≤ 24 ∧ isHexDigit ((stripLeadingCRLF msg).getD i 0) = false) →
      ∃ f c, firstBadField (stripLeadingCRLF msg) = some f ∧
        firstNonHex (slice (stripLeadingCRLF msg) f.lo f.hi) = some c ∧
        (UnmarshalPassing msg).2 =
          some (.UnmarshalError (stripLeadingCRLF msg) f.detail (.InvalidByteError c))) ∧
    (∀ (line : List Nat) (i c : Nat), line.length = 25 → line.head? = some PassingPrefix →
      (∀ j, 1 ≤ j → j ≤ 24 → isHexDigit (line.getD j 0) = true) →
      1 ≤ i → i ≤ 24 → isHexDigit c = false →
      ∃ f : Field, f.lo ≤ i ∧ i < f.hi ∧
        (UnmarshalPassing (line.set i c)).2 =
          some (.UnmarshalError (line.set i c) f.detail (.InvalidByteError c))) := by
  refine ⟨?_, ?_⟩
  · intro msg hlen hbad
    have hh := stripLeadingCRLF_head msg
    rw [← UnmarshalPassing_strip msg]
    rcases UnmarshalPassing_fields _ hlen hh.1 hh.2 with ⟨hnone, _⟩ | h
    · obtain ⟨i, hi1, hi2, hi⟩ := hbad
      rw [(firstBadField_eq_none_iff _ hlen).mp hnone i hi1 hi2] at hi
      exact absurd hi (by decide)
    · exact h
  intro line i c hlen hhead hhex hi1 hi2 hc
  have aux : ∀ (L : List Nat) (f0 : Field), L.length = 25 → L.head? ≠ some 13 →
      L.head? ≠ some 10 → firstBadField L = some f0 →
      firstNonHex (slice L f0.lo f0.hi) = some c →
      (UnmarshalPassing L).2 = some (.UnmarshalError L f0.detail (.InvalidByteError c)) := by
    intro L f0 hL h13 h10 hf0 hc0
    rcases UnmarshalPassing_fields L hL h13 h10 with ⟨hnone, _⟩ | ⟨f, c1, hf, hc1, herr⟩
    · rw [hnone] at hf0
      exact absurd hf0 (by simp)
    · rw [hf0] at hf
      cases hf
      rw [hc0] at hc1
      cases hc1
      exact herr
  obtain ⟨b0, b1, b2, b3, b4, b5, b6, b7, b8, b9, b10, b11, b12,
    b13, b14, b15, b16, b17, b18, b19, b20, b21, b22, b23, b24,
    hline⟩ := length_eq_25 line hlen
  subst hline
  have h1 := hhex 1; have h2 := hhex 2; have h3 := hhex 3; have h4 := hhex 4
  have h5 := hhex 5; have h6 := hhex 6; have h7 := hhex 7; have h8 := hhex 8
  have h9 := hhex 9; have h10 := hhex 10; have h11 := hhex 11; have h12 := hhex 12
  have h13 := hhex 13; have h14 := hhex 14; have h15 := hhex 15; have h16 := hhex 16
  have h17 := hhex 17; have h18 := hhex 18; have h19 := hhex 19; have h20 := hhex 20
  have h21 := hhex 21; have h22 := hhex 22; have h23 := hhex 23; have h24 := hhex 24
  simp at h1 h2 h3 h4 h5 h6 h7 h8 h9 h10 h11 h12
  simp at h13 h14 h15 h16 h17 h18 h19 h20 h21 h22 h23 h24
  simp only [List.head?_cons, Option.some.injEq] at hhead
  clear hhex hlen
  refine ⟨fieldAt i, ?_⟩
  interval_cases i <;>
    refine ⟨by decide, by decide, aux _ _ (by simp) (by simp [hhead, PassingPrefix])
      (by simp [hhead, PassingPrefix]) ?_ ?_⟩ <;>
    simp [fieldAt, firstBadField, Field.all, Field.lo, Field.hi, slice, firstNonHex_cons,
      firstNonHex, *]

/-- C8 at the line `$09M00235BF3036E021358700` of the tests behind a leading `"\r\n"`, and at
the line `$09000235BF3436E021358700` with `'M'` put at offset 3. -/
theorem C8_first_bad_field_witness :
    (∃ f c, firstBadField (stripLeadingCRLF (13 :: 10 :: badPrefixLine)) = some f ∧
      firstNonHex (slice (stripLeadingCRLF (13 :: 10 :: badPrefixLine)) f.lo f.hi) = some c ∧
      (UnmarshalPassing (13 :: 10 :: badPrefixLine)).2 =
        some (.UnmarshalError (stripLeadingCRLF (13 :: 10 :: badPrefixLine)) f.detail
          (.InvalidByteError c))) ∧
    stripLeadingCRLF (13 :: 10 :: badPrefixLine) = badPrefixLine ∧
    (UnmarshalPassing (13 :: 10 :: badPrefixLine)).2 =
      some (.UnmarshalError badPrefixLine "failed to parse prefix" (.InvalidByteError 77)) ∧
    (∃ f : Field, f.lo ≤ 3 ∧ 3 < f.hi ∧
      (UnmarshalPassing (testLine1.set 3 77)).2 =
        some (.UnmarshalError (testLine1.set 3 77) f.detail (.InvalidByteError 77))) :=
  ⟨C8_first_bad_field.1 (13 :: 10 :: badPrefixLine) (by rfl) ⟨3, by decide, by decide, by rfl⟩,
    by rfl, by rfl,
    C8_first_bad_field.2 testLine1 3 77 (by rfl) (by rfl)
      (fun j h1 h2 => by interval_cases j <;> rfl) (by decide) (by decide) (by rfl)⟩

/-- C9 as stated fails: `xLine` has 25 bytes, its first byte `'X'` is not the marker `'$'`,
and `UnmarshalPassing` accepts it, with the record of `$09000235BF3436E021358700`. -/
theorem C9_counterexample :
    xLine.length = 25 ∧ xLine.head? = some 88 ∧ (88 : Nat) ≠ PassingPrefix ∧
    UnmarshalPassing xLine = (testPassing1, none) := by
  refine ⟨by rfl, by rfl, by decide, by rfl⟩

/-- C9, amended: on a line of 25 bytes whose bytes at the offsets 1 to 24 are hexadecimal
digits, `UnmarshalPassing` succeeds exactly when the first byte is neither `'\r'` nor `'\n'`;
the first byte is not compared with `'$'`. -/
theorem C9_first_byte (line : List Nat) (hlen : line.length = 25)
    (hhex : ∀ i, 1 ≤ i → i ≤ 24 → isHexDigit (line.getD i 0) = true) :
    (UnmarshalPassing line).2 = none ↔ (line.head? ≠ some 13 ∧ line.head? ≠ some 10) := by
  constructor
  · intro hok
    by_contra hne
    have hstrip : (stripLeadingCRLF line).length ≠ 25 := by
      obtain ⟨b0, t, rfl⟩ : ∃ b0 t, line = b0 :: t := by
        cases line with
        | nil => simp at hlen
        | cons b0 t => exact ⟨b0, t, rfl⟩
      have hb : (b0 == 13 || b0 == 10) = true := by
        simp only [List.head?_cons, ne_eq, Option.some.injEq, not_and_or, not_not] at hne
        rcases hne with h | h <;> simp [h]
      have hle := (List.dropWhile_sublist (fun b => b == 13 || b == 10) (l := t)).length_le
      simp only [List.length_cons] at hlen
      simp only [stripLeadingCRLF, List.dropWhile_cons, hb, if_true]
      omega
    rw [UnmarshalPassing_length line hstrip] at hok
    exact absurd hok (by simp)
  · rintro ⟨h13, h10⟩
    rcases UnmarshalPassing_fields line hlen h13 h10 with ⟨_, hok⟩ | ⟨f, c, hf, _, _⟩
    · exact hok
    · rw [(firstBadField_eq_none_iff line hlen).mpr hhex] at hf
      exact absurd hf (by simp)

/-- C9, amended, at `X09000235BF3436E021358700`. -/
theorem C9_first_byte_witness :
    (UnmarshalPassing xLine).2 = none ↔ (xLine.head? ≠ some 13 ∧ xLine.head? ≠ some 10) :=
  C9_first_byte xLine (by rfl) (fun i h1 h2 => by interval_cases i <;> rfl)

/-! ## Leading carriage returns and newlines: claim C11 -/

theorem TrimLeft_append_crlf (p L : List Nat) (hp : ∀ b ∈ p, b = 13 ∨ b = 10) :
    bytes.TrimLeft (p ++ L) [13, 10] = bytes.TrimLeft L [13, 10] := by
  induction p with
  | nil => rfl
  | cons a p ih =>
    have ha : ([13, 10] : List Nat).contains a = true := by
      rcases hp a (List.mem_cons_self _ _) with h | h <;> subst h <;> rfl
    have := ih (fun b hb => hp b (List.mem_cons_of_mem _ hb))
    simp only [bytes.TrimLeft] at this ⊢
    rw [List.cons_append, List.dropWhile_cons, if_pos ha, this]

/-- C11: leading `'\r'` and `'\n'` bytes, in any number and order, change neither the value
nor the error that `UnmarshalPassing` and `UnmarshalNoise` return. -/
theorem C11_leading_crlf (p L : List Nat) (hp : ∀ b ∈ p, b = 13 ∨ b = 10) :
    UnmarshalPassing (p ++ L) = UnmarshalPassing L ∧
    UnmarshalNoise (p ++ L) = UnmarshalNoise L := by
  constructor
  · simp only [UnmarshalPassing, TrimLeft_append_crlf p L hp]
  · simp only [UnmarshalNoise, TrimLeft_append_crlf p L hp]

/-- C11 at the lines of the tests behind the bytes `"\n\r\r\n"`. -/
theorem C11_leading_crlf_witness :
    UnmarshalPassing ([10, 13, 13, 10] ++ testLine1) = UnmarshalPassing testLine1 ∧
    UnmarshalNoise ([10, 13, 13, 10] ++ [35, 48, 57, 55, 48]) =
      UnmarshalNoise [35, 48, 57, 55, 48] :=
  ⟨(C11_leading_crlf [10, 13, 13, 10] testLine1 (by decide)).1,
    (C11_leading_crlf [10, 13, 13, 10] [35, 48, 57, 55, 48] (by decide)).2⟩

/-! ## The sentinel `MessageLenghtError`: claim C17 -/

/-- The errors of `hex.DecodeString` are `ErrLength` and `InvalidByteError`. -/
theorem DecodeString_error_kind : ∀ (s : List Nat) (e : GoError),
    (hex.DecodeString s).2 = some e → e = .ErrLength ∨ ∃ b, e = .InvalidByteError b
  | [], e, h => by simp [hex.DecodeString] at h
  | [p], e, h => by
    simp only [hex.DecodeString] at h
    split at h <;> simp only [Option.some.injEq] at h <;> subst h
    · exact Or.inr ⟨_, rfl⟩
    · exact Or.inl rfl
  | p :: q :: src, e, h => by
    simp only [hex.DecodeString] at h
    split at h
    · simp only [Option.some.injEq] at h; subst h; exact Or.inr ⟨_, rfl⟩
    · split at h
      · simp only [Option.some.injEq] at h; subst h; exact Or.inr ⟨_, rfl⟩
      · exact DecodeString_error_kind src e h

theorem hexBytes_error_kind (s : List Nat) (e : GoError) :
    ((hexBytesToUint8 s).2 = some e → IsHexError e) ∧
    ((hexBytesToUint16 s).2 = some e → IsHexError e) ∧
    ((hexBytesToUint24 s).2 = some e → IsHexError e) ∧
    ((hexBytesToUint32 s).2 = some e → IsHexError e) := by
  rw [hexBytesToUint8_snd, hexBytesToUint16_snd, hexBytesToUint24_snd, hexBytesToUint32_snd]
  exact ⟨DecodeString_error_kind _ e, DecodeString_error_kind _ e,
    DecodeString_error_kind _ e, DecodeString_error_kind _ e⟩

/-- Every error of `UnmarshalPassing` is an `UnmarshalError` that wraps the fresh length error
or an error of `hex.DecodeString`. -/
theorem UnmarshalPassing_error_kind (msg : List Nat) (err : GoError)
    (h : (UnmarshalPassing msg).2 = some err) :
    ∃ m d inner, err = .UnmarshalError m d inner ∧
      (inner = .Errorf "invalid message length" ∨ IsHexError inner) := by
  simp only [UnmarshalPassing] at h
  split_ifs at h
  · simp only [Option.some.injEq] at h; subst h; exact ⟨_, _, _, rfl, Or.inl rfl⟩
  · split at h
    · rename_i e he
      simp only [Option.some.injEq] at h; subst h
      exact ⟨_, _, _, rfl, Or.inr ((hexBytes_error_kind _ _).2.1 he)⟩
    · split at h
      · rename_i e he
        simp only [Option.some.injEq] at h; subst h
        exact ⟨_, _, _, rfl, Or.inr ((hexBytes_error_kind _ _).2.2.1 he)⟩
      · split at h
        · rename_i e he
          simp only [Option.some.injEq] at h; subst h
          exact ⟨_, _, _, rfl, Or.inr ((hexBytes_error_kind _ _).2.2.2 he)⟩
        · split at h
          · rename_i e he
            simp only [Option.some.injEq] at h; subst h
            exact ⟨_, _, _, rfl, Or.inr ((hexBytes_error_kind _ _).1 he)⟩
          · split at h
            · rename_i e he
              simp only [Option.some.injEq] at h; subst h
              exact ⟨_, _, _, rfl, Or.inr ((hexBytes_error_kind _ _).1 he)⟩
            · split at h
              · rename_i e he
                simp only [Option.some.injEq] at h; subst h
                exact ⟨_, _, _, rfl, Or.inr ((hexBytes_error_kind _ _).1 he)⟩
              · simp at h

/-- Every error of `UnmarshalNoise` is an `UnmarshalError` that wraps the fresh length error
or an error of `hex.DecodeString`. -/
theorem UnmarshalNoise_error_kind (msg : List Nat) (err : GoError)
    (h : (UnmarshalNoise msg).2 = some err) :
    ∃ m d inner, err = .UnmarshalError m d inner ∧
      (inner = .Errorf "invalid message length" ∨ IsHexError inner) := by
  simp only [UnmarshalNoise] at h
  split_ifs at h
  · simp only [Option.some.injEq] at h; subst h; exact ⟨_, _, _, rfl, Or.inl rfl⟩
  · split at h
    · rename_i e he
      simp only [Option.some.injEq] at h; subst h
      exact ⟨_, _, _, rfl, Or.inr ((hexBytes_error_kind
        (slice (bytes.TrimLeft msg [13, 10]) 1 noiseMsgLength) e).2.1 (by rw [he]))⟩
    · simp at h

theorem not_sentinel_of_kind (err : GoError)
    (h : ∃ m d inner, err = .UnmarshalError m d inner ∧
      (inner = .Errorf "invalid message length" ∨ IsHexError inner)) :
    err ≠ .MessageLenghtError ∧ ∀ m d, err ≠ .UnmarshalError m d .MessageLenghtError := by
  obtain ⟨m, d, inner, rfl, hi⟩ := h
  refine ⟨by simp, ?_⟩
  intro m1 d1 heq
  simp only [GoError.UnmarshalError.injEq] at heq
  obtain ⟨_, _, rfl⟩ := heq
  rcases hi with hi | hi | ⟨b, hi⟩ <;> simp at hi

/-- C17, evaluated on the lines `#090` and `$09000235BF3436E0213587` of the tests, whose
lengths are not the expected ones: the error returned is an `UnmarshalError` that wraps a
fresh `fmt.Errorf("invalid message length")`; neither it nor the error it wraps is the
variable `MessageLenghtError`. And on no input at all does either decoder return
`MessageLenghtError` or an `UnmarshalError` that wraps it. -/
theorem C17_length_error_is_not_the_sentinel :
    UnmarshalNoise [35, 48, 57, 48] =
      (0, some (.UnmarshalError [35, 48, 57, 48] "message length 4"
        (.Errorf "invalid message length"))) ∧
    (UnmarshalPassing [36, 48, 57, 48, 48, 48, 50, 51, 53, 66, 70, 51, 52, 51, 54, 69, 48, 50,
        49, 51, 53, 56, 55]).2 =
      some (.UnmarshalError [36, 48, 57, 48, 48, 48, 50, 51, 53, 66, 70, 51, 52, 51, 54, 69, 48,
        50, 49, 51, 53, 56, 55] "message length 23" (.Errorf "invalid message length")) ∧
    GoError.Errorf "invalid message length" ≠ GoError.MessageLenghtError ∧
    (∀ msg : List Nat, (UnmarshalNoise msg).2 ≠ some .MessageLenghtError ∧
      (UnmarshalPassing msg).2 ≠ some .MessageLenghtError ∧
      (∀ m d, (UnmarshalNoise msg).2 ≠ some (.UnmarshalError m d .MessageLenghtError)) ∧
      (∀ m d, (UnmarshalPassing msg).2 ≠ some (.UnmarshalError m d .MessageLenghtError))) := by
  refine ⟨by rfl, by rfl, by simp, ?_⟩
  intro msg
  have hn : ∀ err, (UnmarshalNoise msg).2 = some err → _ :=
    fun err h => not_sentinel_of_kind err (UnmarshalNoise_error_kind msg err h)
  have hp : ∀ err, (UnmarshalPassing msg).2 = some err → _ :=
    fun err h => not_sentinel_of_kind err (UnmarshalPassing_error_kind msg err h)
  exact ⟨fun h => (hn _ h).1 rfl, fun h => (hp _ h).1 rfl,
    fun m d h => (hn _ h).2 m d rfl, fun m d h => (hp _ h).2 m d rfl⟩

/-! ## The decoded transponder id: claim C18 -/

theorem fromHexChar_lt (c v : Nat) (h : hex.fromHexChar c = some v) : v < 16 := by
  simp only [hex.fromHexChar] at h
  split_ifs at h <;> simp only [Option.some.injEq] at h <;> omega

/-- Every byte that `hex.DecodeString` gives is below 256. -/
theorem DecodeString_bytes : ∀ (s : List Nat) (b : Nat), b ∈ (hex.DecodeString s).1 → b < 256
  | [], b, h => by simp [hex.DecodeString] at h
  | [p], b, h => by
    simp only [hex.DecodeString] at h
    split at h <;> simp at h
  | p :: q :: src, b, h => by
    rcases ha : hex.fromHexChar p with _ | a
    · simp [hex.DecodeString, ha] at h
    · rcases hc : hex.fromHexChar q with _ | c
      · simp [hex.DecodeString, ha, hc] at h
      · simp only [hex.DecodeString, ha, hc, List.mem_cons] at h
        rcases h with h | h
        · have := fromHexChar_lt _ _ ha
          have := fromHexChar_lt _ _ hc
          omega
        · exact DecodeString_bytes src b h

theorem getD_lt_of_bytes (l : List Nat) (i : Nat) (h : ∀ b ∈ l, b < 256) :
    l.getD i 0 < 256 := by
  rw [List.getD_eq_getElem?_getD]
  rcases hi : l[i]? with _ | v
  · simp
  · simpa using h v (List.getElem?_mem hi)

/-- The value of `hexBytesToUint24` is below `2 ^ 24`, whatever the input. -/
theorem hexBytesToUint24_lt (s : List Nat) : (hexBytesToUint24 s).1 < 2 ^ 24 := by
  unfold hexBytesToUint24
  split
  · norm_num
  · rename_i out hout
    have hb : ∀ b ∈ out, b < 256 := by
      intro b hb
      have := DecodeString_bytes ([48, 48] ++ s) b
      rw [hout] at this
      exact this hb
    have h0 : out.getD 0 0 = 0 := by
      have h2 : (hex.DecodeString ([48, 48] ++ s)).1 = out := by rw [hout]
      simp only [List.cons_append, List.nil_append, hex.DecodeString] at h2
      have e48 : hex.fromHexChar 48 = some 0 := rfl
      simp only [e48] at h2
      rw [← h2]
      rfl
    have h1 := getD_lt_of_bytes out 1 hb
    have h2 := getD_lt_of_bytes out 2 hb
    have h3 := getD_lt_of_bytes out 3 hb
    simp only [binary.BigEndian.Uint32, h0]
    omega

/-- The transponder id in the record that `UnmarshalPassing` returns is below `2 ^ 24`, with
or without an error. -/
theorem UnmarshalPassing_TransponderID_lt (msg : List Nat) :
    (UnmarshalPassing msg).1.TransponderID < 2 ^ 24 := by
  have h24 := hexBytesToUint24_lt (slice (bytes.TrimLeft msg [13, 10]) 5 11)
  simp only [UnmarshalPassing]
  split_ifs
  · norm_num
  · repeat' split
    all_goals first | exact h24 | norm_num

/-- C18: when `UnmarshalPassing` succeeds, the transponder id of the record is at most
`0xFFFFFF`, which is `MaxTransponderID`, and `MarshalPassing` of the record returns no error
(so not `TransponderIDOverflow`). -/
theorem C18_decoded_transponder_id (msg : List Nat) (rec0 : Passing)
    (h : UnmarshalPassing msg = (rec0, none)) :
    rec0.TransponderID ≤ 0xFFFFFF ∧ rec0.TransponderID ≤ MaxTransponderID ∧
    (MarshalPassing rec0).2 = none ∧
    (MarshalPassing rec0).2 ≠ some .TransponderIDOverflow := by
  have hlt := UnmarshalPassing_TransponderID_lt msg
  rw [h] at hlt
  simp only at hlt
  have hmax : MaxTransponderID = 16777215 := by decide
  have hle : rec0.TransponderID ≤ MaxTransponderID := by omega
  have hm := MarshalPassing_eq_passingLine rec0 hle
  refine ⟨by omega, hle, by rw [hm], by rw [hm]; simp⟩

/-- C18 at the line `$09FFFFFFBF3436E021358700`, whose transponder id is `0xFFFFFF`. -/
theorem C18_decoded_transponder_id_witness :
    (16777215 : Nat) ≤ 0xFFFFFF ∧ 16777215 ≤ MaxTransponderID ∧
    (MarshalPassing ⟨16777215, 3208918753, 53, 135, 2304, 0⟩).2 = none ∧
    (MarshalPassing ⟨16777215, 3208918753, 53, 135, 2304, 0⟩).2 ≠
      some .TransponderIDOverflow :=
  C18_decoded_transponder_id
    [36, 48, 57, 48, 48, 70, 70, 70, 70, 70, 70, 66, 70, 52, 52, 51, 54, 69, 49, 51, 53, 56, 55,
      48, 48] ⟨16777215, 3208918753, 53, 135, 2304, 0⟩ (by rfl)

/-! ## The record returned next to an error: claim C12 -/

theorem hexBytes_fst_of_error (s : List Nat) :
    ((hexBytesToUint8 s).2 ≠ none → (hexBytesToUint8 s).1 = 0) ∧
    ((hexBytesToUint16 s).2 ≠ none → (hexBytesToUint16 s).1 = 0) ∧
    ((hexBytesToUint24 s).2 ≠ none → (hexBytesToUint24 s).1 = 0) ∧
    ((hexBytesToUint32 s).2 ≠ none → (hexBytesToUint32 s).1 = 0) := by
  refine ⟨?_, ?_, ?_, ?_⟩
  · unfold hexBytesToUint8; split <;> simp
  · unfold hexBytesToUint16; split <;> simp
  · unfold hexBytesToUint24; split <;> simp
  · unfold hexBytesToUint32; split <;> simp

/-- The whole answer of `UnmarshalPassing` on a line of 25 bytes that does not start with
`'\r'` or `'\n'`: the record of all six fields and no error when every field decodes, and
otherwise the record of the fields before the first bad field, with the error that names
that field. -/
theorem UnmarshalPassing_result (line : List Nat) (hlen : line.length = 25)
    (h13 : line.head? ≠ some 13) (h10 : line.head? ≠ some 10) :
    (firstBadField line = none ∧ UnmarshalPassing line = (recordOfLine line, none)) ∨
    (∃ f c, firstBadField line = some f ∧ firstNonHex (slice line f.lo f.hi) = some c ∧
      UnmarshalPassing line = (recordBefore line f,
        some (.UnmarshalError line f.detail (.InvalidByteError c)))) := by
  have htrim : bytes.TrimLeft line [13, 10] = line := by
    obtain ⟨b0, t, rfl⟩ : ∃ b0 t, line = b0 :: t := by
      cases line with
      | nil => simp at hlen
      | cons b0 t => exact ⟨b0, t, rfl⟩
    simp only [List.head?_cons, ne_eq, Option.some.injEq] at h13 h10
    simp [bytes.TrimLeft, List.dropWhile, h13, h10]
  have l1 : (slice line 1 5).length % 2 = 0 := by simp [slice, hlen]
  have l2 : (slice line 5 11).length % 2 = 0 := by simp [slice, hlen]
  have l3 : (slice line 11 19).length % 2 = 0 := by simp [slice, hlen]
  have l4 : (slice line 19 21).length % 2 = 0 := by simp [slice, hlen]
  have l5 : (slice line 21 23).length % 2 = 0 := by simp [slice, hlen]
  have l6 : (slice line 23 25).length % 2 = 0 := by simp [slice, hlen]
  have z1 := (hexBytes_fst_of_error (slice line 1 5)).2.1
  have z2 := (hexBytes_fst_of_error (slice line 5 11)).2.2.1
  have z3 := (hexBytes_fst_of_error (slice line 11 19)).2.2.2
  have z4 := (hexBytes_fst_of_error (slice line 19 21)).1
  have z5 := (hexBytes_fst_of_error (slice line 21 23)).1
  have z6 := (hexBytes_fst_of_error (slice line 23 25)).1
  rcases field_status16 _ l1 with ⟨n1, e1⟩ | ⟨c, n1, e1⟩
  swap
  · exact Or.inr ⟨.Prefix, c, by simp [firstBadField, Field.all, Field.lo, Field.hi, n1],
      n1, by simp [UnmarshalPassing, htrim, hlen, passingMsgLength, Field.detail, e1,
        recordBefore, Field.lo, z1 (by simp [e1])]⟩
  rcases field_status24 _ l2 with ⟨n2, e2⟩ | ⟨c, n2, e2⟩
  swap
  · exact Or.inr ⟨.TransponderID, c,
      by simp [firstBadField, Field.all, Field.lo, Field.hi, n1, n2],
      n2, by simp [UnmarshalPassing, htrim, hlen, passingMsgLength, Field.detail, e1, e2,
        recordBefore, fieldValue, Field.lo, z2 (by simp [e2])]⟩
  rcases field_status32 _ l3 with ⟨n3, e3⟩ | ⟨c, n3, e3⟩
  swap
  · exact Or.inr ⟨.PassingTicks, c,
      by simp [firstBadField, Field.all, Field.lo, Field.hi, n1, n2, n3],
      n3, by simp [UnmarshalPassing, htrim, hlen, passingMsgLength, Field.detail, e1, e2, e3,
        recordBefore, fieldValue, Field.lo, z3 (by simp [e3])]⟩
  rcases field_status8 _ l4 with ⟨n4, e4⟩ | ⟨c, n4, e4⟩
  swap
  · exact Or.inr ⟨.Hits, c,
      by simp [firstBadField, Field.all, Field.lo, Field.hi, n1, n2, n3, n4],
      n4, by simp [UnmarshalPassing, htrim, hlen, passingMsgLength, Field.detail, e1, e2, e3,
        e4, recordBefore, fieldValue, Field.lo, z4 (by simp [e4])]⟩
  rcases field_status8 _ l5 with ⟨n5, e5⟩ | ⟨c, n5, e5⟩
  swap
  · exact Or.inr ⟨.Strength, c,
      by simp [firstBadField, Field.all, Field.lo, Field.hi, n1, n2, n3, n4, n5],
      n5, by simp [UnmarshalPassing, htrim, hlen, passingMsgLength, Field.detail, e1, e2, e3,
        e4, e5, recordBefore, fieldValue, Field.lo, z5 (by simp [e5])]⟩
  rcases field_status8 _ l6 with ⟨n6, e6⟩ | ⟨c, n6, e6⟩
  swap
  · exact Or.inr ⟨.Trailing, c,
      by simp [firstBadField, Field.all, Field.lo, Field.hi, n1, n2, n3, n4, n5, n6],
      n6, by simp [UnmarshalPassing, htrim, hlen, passingMsgLength, Field.detail, e1, e2, e3,
        e4, e5, e6, recordBefore, fieldValue, Field.lo, z6 (by simp [e6])]⟩
  exact Or.inl ⟨by simp [firstBadField, Field.all, Field.lo, Field.hi, n1, n2, n3, n4, n5, n6],
    by simp [UnmarshalPassing, htrim, hlen, passingMsgLength, e1, e2, e3, e4, e5, e6,
      recordOfLine, fieldValue]⟩

/-- The record that `UnmarshalPassing` returns next to an error: the zero record when the
trimmed message is not 25 bytes long; otherwise the values decoded for the fields before the
first field whose bytes do not decode, and 0 in that field and in every later one. -/
theorem UnmarshalPassing_record_of_error (msg : List Nat)
    (h : (UnmarshalPassing msg).2 ≠ none) :
    ((stripLeadingCRLF msg).length ≠ 25 ∧ (UnmarshalPassing msg).1 = Passing.zero) ∨
      (∃ f c, (stripLeadingCRLF msg).length = 25 ∧
        firstBadField (stripLeadingCRLF msg) = some f ∧
        (UnmarshalPassing msg).2 = some (.UnmarshalError (stripLeadingCRLF msg) f.detail
          (.InvalidByteError c)) ∧
        (UnmarshalPassing msg).1 = recordBefore (stripLeadingCRLF msg) f) := by
  by_cases hlen : (stripLeadingCRLF msg).length = 25
  · right
    have hh := stripLeadingCRLF_head msg
    rw [← UnmarshalPassing_strip msg] at h ⊢
    rcases UnmarshalPassing_result _ hlen hh.1 hh.2 with ⟨_, hok⟩ | ⟨f, c, hf, _, hres⟩
    · rw [hok] at h
      exact absurd rfl h
    · exact ⟨f, c, hlen, hf, by rw [hres], by rw [hres]⟩
  · left
    exact ⟨hlen, by rw [UnmarshalPassing_length msg hlen]⟩

/-- The value that `UnmarshalNoise` returns next to an error is 0, on both error paths. -/
theorem UnmarshalNoise_value_of_error (msg : List Nat) (h : (UnmarshalNoise msg).2 ≠ none) :
    (UnmarshalNoise msg).1 = 0 := by
  simp only [UnmarshalNoise] at h ⊢
  split_ifs at h ⊢
  · rfl
  · rcases hx : hexBytesToUint16 (slice (bytes.TrimLeft msg [13, 10]) 1 noiseMsgLength)
      with ⟨n, _ | err⟩
    · rw [hx] at h
      exact absurd rfl h
    · rfl

/-- C12, evaluated on the line `$090002M5BF3036E021358700` of the tests: `UnmarshalPassing`
returns the error that names the transponder id, and next to it a record that is not the
zero record: its Prefix is `0x0900`, decoded before the offending field. The other error
paths do return the zero value: `UnmarshalPassing` on a message of another length,
`UnmarshalNoise` on every error, and the four hexadecimal helpers on every error. -/
theorem C12_partial_record_next_to_error :
    UnmarshalPassing badTransponderLine =
      (⟨0, 0, 0, 0, 2304, 0⟩, some (.UnmarshalError badTransponderLine
        "failed to parse transponder id" (.InvalidByteError 77))) ∧
    (UnmarshalPassing badTransponderLine).2 ≠ none ∧
    (UnmarshalPassing badTransponderLine).1 ≠ Passing.zero ∧
    (∀ msg : List Nat, (stripLeadingCRLF msg).length ≠ 25 →
      (UnmarshalPassing msg).1 = Passing.zero) ∧
    (∀ msg : List Nat, (UnmarshalNoise msg).2 ≠ none → (UnmarshalNoise msg).1 = 0) ∧
    (∀ s : List Nat, ((hexBytesToUint8 s).2 ≠ none → (hexBytesToUint8 s).1 = 0) ∧
      ((hexBytesToUint16 s).2 ≠ none → (hexBytesToUint16 s).1 = 0) ∧
      ((hexBytesToUint24 s).2 ≠ none → (hexBytesToUint24 s).1 = 0) ∧
      ((hexBytesToUint32 s).2 ≠ none → (hexBytesToUint32 s).1 = 0)) := by
  refine ⟨by rfl, by decide, by decide, ?_, UnmarshalNoise_value_of_error,
    hexBytes_fst_of_error⟩
  intro msg hlen
  rw [UnmarshalPassing_length msg hlen]

/-! ## Encoding what the decoder read: claim C19 -/

theorem upperHexChar_of_isUpperHexDigit (c : Nat) (h : isUpperHexDigit c = true) :
    ∃ d, d < 16 ∧ c = upperHexChar d := by
  simp only [isUpperHexDigit, Bool.or_eq_true, Bool.and_eq_true, decide_eq_true_eq] at h
  rcases h with ⟨h1, h2⟩ | ⟨h1, h2⟩
  · exact ⟨c - 48, by omega, by interval_cases c <;> rfl⟩
  · exact ⟨c - 55, by omega, by interval_cases c <;> rfl⟩

theorem uint8ToHexStr_digits (a b : Nat) (ha : a < 16) (hb : b < 16) :
    uint8ToHexStr (a * 16 + b) = [upperHexChar a, upperHexChar b] := by
  rw [uint8ToHexStr_eq]
  have h1 : (a * 16 + b) / 16 % 16 = a := by omega
  have h2 : (a * 16 + b) % 16 = b := by omega
  rw [h1, h2]

theorem uint16ToHexStr_digits (a b c d : Nat) (ha : a < 16) (hb : b < 16) (hc : c < 16)
    (hd : d < 16) :
    uint16ToHexStr (a * 4096 + b * 256 + c * 16 + d) =
      [upperHexChar a, upperHexChar b, upperHexChar c, upperHexChar d] := by
  rw [uint16ToHexStr_eq]
  have h1 : (a * 4096 + b * 256 + c * 16 + d) / 4096 % 16 = a := by omega
  have h2 : (a * 4096 + b * 256 + c * 16 + d) / 256 % 16 = b := by omega
  have h3 : (a * 4096 + b * 256 + c * 16 + d) / 16 % 16 = c := by omega
  have h4 : (a * 4096 + b * 256 + c * 16 + d) % 16 = d := by omega
  rw [h1, h2, h3, h4]

theorem uint24ToHexStr_digits (a b c d e f : Nat) (ha : a < 16) (hb : b < 16) (hc : c < 16)
    (hd : d < 16) (he : e < 16) (hf : f < 16) :
    uint24ToHexStr (a * 1048576 + b * 65536 + c * 4096 + d * 256 + e * 16 + f) =
      [upperHexChar a, upperHexChar b, upperHexChar c, upperHexChar d, upperHexChar e,
        upperHexChar f] := by
  rw [uint24ToHexStr_eq]
  generalize hn : a * 1048576 + b * 65536 + c * 4096 + d * 256 + e * 16 + f = n
  have h1 : n / 1048576 % 16 = a := by omega
  have h2 : n / 65536 % 16 = b := by omega
  have h3 : n / 4096 % 16 = c := by omega
  have h4 : n / 256 % 16 = d := by omega
  have h5 : n / 16 % 16 = e := by omega
  have h6 : n % 16 = f := by omega
  rw [h1, h2, h3, h4, h5, h6]

theorem uint32ToHexStr_digits (a b c d e f g k : Nat) (ha : a < 16) (hb : b < 16)
    (hc : c < 16) (hd : d < 16) (he : e < 16) (hf : f < 16) (hg : g < 16) (hk : k < 16) :
    uint32ToHexStr (a * 268435456 + b * 16777216 + c * 1048576 + d * 65536 + e * 4096 +
        f * 256 + g * 16 + k) =
      [upperHexChar a, upperHexChar b, upperHexChar c, upperHexChar d, upperHexChar e,
        upperHexChar f, upperHexChar g, upperHexChar k] := by
  rw [uint32ToHexStr_eq]
  generalize hn : a * 268435456 + b * 16777216 + c * 1048576 + d * 65536 + e * 4096 +
    f * 256 + g * 16 + k = n
  have h1 : n / 268435456 % 16 = a := by omega
  have h2 : n / 16777216 % 16 = b := by omega
  have h3 : n / 1048576 % 16 = c := by omega
  have h4 : n / 65536 % 16 = d := by omega
  have h5 : n / 4096 % 16 = e := by omega
  have h6 : n / 256 % 16 = f := by omega
  have h7 : n / 16 % 16 = g := by omega
  have h8 : n % 16 = k := by omega
  rw [h1, h2, h3, h4, h5, h6, h7, h8]

/-- A line of 25 bytes that starts with `'$'` and goes on with 24 uppercase hexadecimal
digits is the line that `MarshalPassing` writes for some record within range. -/
theorem exists_passingLine (line : List Nat) (hlen : line.length = 25)
    (hhead : line.head? = some PassingPrefix)
    (hhex : ∀ i, 1 ≤ i → i ≤ 24 → isUpperHexDigit (line.getD i 0) = true) :
    ∃ rec0 : Passing, rec0.InRange ∧ rec0.TransponderID ≤ MaxTransponderID ∧
      passingLine rec0 = line := by
  obtain ⟨b0, b1, b2, b3, b4, b5, b6, b7, b8, b9, b10, b11, b12,
    b13, b14, b15, b16, b17, b18, b19, b20, b21, b22, b23, b24,
    hline⟩ := length_eq_25 line hlen
  subst hline
  obtain ⟨d1, l1, e1⟩ := upperHexChar_of_isUpperHexDigit b1 (by simpa using hhex 1)
  subst e1
  obtain ⟨d2, l2, e2⟩ := upperHexChar_of_isUpperHexDigit b2 (by simpa using hhex 2)
  subst e2
  obtain ⟨d3, l3, e3⟩ := upperHexChar_of_isUpperHexDigit b3 (by simpa using hhex 3)
  subst e3
  obtain ⟨d4, l4, e4⟩ := upperHexChar_of_isUpperHexDigit b4 (by simpa using hhex 4)
  subst e4
  obtain ⟨d5, l5, e5⟩ := upperHexChar_of_isUpperHexDigit b5 (by simpa using hhex 5)
  subst e5
  obtain ⟨d6, l6, e6⟩ := upperHexChar_of_isUpperHexDigit b6 (by simpa using hhex 6)
  subst e6
  obtain ⟨d7, l7, e7⟩ := upperHexChar_of_isUpperHexDigit b7 (by simpa using hhex 7)
  subst e7
  obtain ⟨d8, l8, e8⟩ := upperHexChar_of_isUpperHexDigit b8 (by simpa using hhex 8)
  subst e8
  obtain ⟨d9, l9, e9⟩ := upperHexChar_of_isUpperHexDigit b9 (by simpa using hhex 9)
  subst e9
  obtain ⟨d10, l10, e10⟩ := upperHexChar_of_isUpperHexDigit b10 (by simpa using hhex 10)
  subst e10
  obtain ⟨d11, l11, e11⟩ := upperHexChar_of_isUpperHexDigit b11 (by simpa using hhex 11)
  subst e11
  obtain ⟨d12, l12, e12⟩ := upperHexChar_of_isUpperHexDigit b12 (by simpa using hhex 12)
  subst e12
  obtain ⟨d13, l13, e13⟩ := upperHexChar_of_isUpperHexDigit b13 (by simpa using hhex 13)
  subst e13
  obtain ⟨d14, l14, e14⟩ := upperHexChar_of_isUpperHexDigit b14 (by simpa using hhex 14)
  subst e14
  obtain ⟨d15, l15, e15⟩ := upperHexChar_of_isUpperHexDigit b15 (by simpa using hhex 15)
  subst e15
  obtain ⟨d16, l16, e16⟩ := upperHexChar_of_isUpperHexDigit b16 (by simpa using hhex 16)
  subst e16
  obtain ⟨d17, l17, e17⟩ := upperHexChar_of_isUpperHexDigit b17 (by simpa using hhex 17)
  subst e17
  obtain ⟨d18, l18, e18⟩ := upperHexChar_of_isUpperHexDigit b18 (by simpa using hhex 18)
  subst e18
  obtain ⟨d19, l19, e19⟩ := upperHexChar_of_isUpperHexDigit b19 (by simpa using hhex 19)
  subst e19
  obtain ⟨d20, l20, e20⟩ := upperHexChar_of_isUpperHexDigit b20 (by simpa using hhex 20)
  subst e20
  obtain ⟨d21, l21, e21⟩ := upperHexChar_of_isUpperHexDigit b21 (by simpa using hhex 21)
  subst e21
  obtain ⟨d22, l22, e22⟩ := upperHexChar_of_isUpperHexDigit b22 (by simpa using hhex 22)
  subst e22
  obtain ⟨d23, l23, e23⟩ := upperHexChar_of_isUpperHexDigit b23 (by simpa using hhex 23)
  subst e23
  obtain ⟨d24, l24, e24⟩ := upperHexChar_of_isUpperHexDigit b24 (by simpa using hhex 24)
  subst e24
  simp only [List.head?_cons, Option.some.injEq] at hhead
  subst hhead
  refine ⟨⟨d5 * 1048576 + d6 * 65536 + d7 * 4096 + d8 * 256 + d9 * 16 + d10,
    d11 * 268435456 + d12 * 16777216 + d13 * 1048576 + d14 * 65536 + d15 * 4096 +
      d16 * 256 + d17 * 16 + d18,
    d19 * 16 + d20, d21 * 16 + d22, d1 * 4096 + d2 * 256 + d3 * 16 + d4,
    d23 * 16 + d24⟩, ?_, ?_, ?_⟩
  · simp only [Passing.InRange]
    omega
  · have : MaxTransponderID = 16777215 := by decide
    simp only [this]
    omega
  · simp only [passingLine]
    rw [uint16ToHexStr_digits _ _ _ _ l1 l2 l3 l4,
      uint24ToHexStr_digits _ _ _ _ _ _ l5 l6 l7 l8 l9 l10,
      uint32ToHexStr_digits _ _ _ _ _ _ _ _ l11 l12 l13 l14 l15 l16 l17 l18,
      uint8ToHexStr_digits _ _ l19 l20, uint8ToHexStr_digits _ _ l21 l22,
      uint8ToHexStr_digits _ _ l23 l24]
    rfl

/-- C19: on a line of 25 bytes that starts with `'$'` and whose bytes at the offsets 1 to 24
are all among `0`-`9`, `A`-`F`, `UnmarshalPassing` succeeds with a record, and
`MarshalPassing` of that record succeeds with the line followed by `"\r\n"`. -/
theorem C19_marshal_of_unmarshal (line : List Nat) (hlen : line.length = 25)
    (hhead : line.head? = some 0x24)
    (hhex : ∀ i, 1 ≤ i → i ≤ 24 → isUpperHexDigit (line.getD i 0) = true) :
    ∃ rec0 : Passing, UnmarshalPassing line = (rec0, none) ∧
      MarshalPassing rec0 = (some (line ++ [0x0D, 0x0A]), none) := by
  obtain ⟨rec0, hr, hmax, hl⟩ := exists_passingLine line hlen hhead hhex
  refine ⟨rec0, ?_, ?_⟩
  · rw [← hl]
    exact UnmarshalPassing_passingLine rec0 hr hmax
  · rw [← hl]
    exact MarshalPassing_eq_passingLine rec0 hmax

/-- C19 at the line `$09000235BF3436E021358700` of the tests. -/
theorem C19_marshal_of_unmarshal_witness :
    ∃ rec0 : Passing, UnmarshalPassing testLine1 = (rec0, none) ∧
      MarshalPassing rec0 = (some (testLine1 ++ [0x0D, 0x0A]), none) :=
  C19_marshal_of_unmarshal testLine1 (by rfl) (by rfl)
    (fun i h1 h2 => by interval_cases i <;> rfl)

/-! ## Lemmas on the lines of a reader -/

/-- What `ReadSlice` returns and what it leaves make up what the source held. -/
theorem ReadSlice_parts (d : Nat) (r : ReaderState) :
    (bufio.ReadSlice d r).2.err = r.err ∧
    (bufio.ReadSlice d r).1.1 ++ (bufio.ReadSlice d r).2.data = r.data ∧
    ((bufio.ReadSlice d r).1.2 = none → (bufio.ReadSlice d r).1.1 ≠ []) := by
  simp only [bufio.ReadSlice]
  split_ifs with h1 h2
  · refine ⟨rfl, List.take_append_drop _ _, fun _ => ?_⟩
    have hw := List.length_take bufio.defaultBufSize r.data
    intro h0
    have := congrArg List.length h0
    simp only [List.length_take, List.length_nil] at this
    omega
  · exact ⟨rfl, List.append_nil _, fun h => by simp at h⟩
  · exact ⟨rfl, List.take_append_drop _ _, fun h => by simp at h⟩

/-- A call of `ReadLine` that returns no error takes at least one byte from the source, or
leaves the reader as it was. -/
theorem ReadLine_progress (r : ReaderState) (h : (bufio.ReadLine r).1.2.2 = none) :
    (bufio.ReadLine r).2.data.length < r.data.length ∨
      bufio.ReadLine r = (([], true, none), r) := by
  obtain ⟨herr, hdata, hne⟩ := ReadSlice_parts 10 r
  rcases hs : bufio.ReadSlice 10 r with ⟨⟨line, serr⟩, r1⟩
  rw [hs] at herr hdata hne
  simp only at herr hdata hne
  have hlen : line.length + r1.data.length = r.data.length := by
    rw [← hdata, List.length_append]
  obtain ⟨d1, e1⟩ := r1
  obtain ⟨d0, e0⟩ := r
  simp only at herr hdata hlen
  subst herr
  simp only [bufio.ReadLine, hs] at h ⊢
  split at h
  · rename_i line' r1' heq
    simp only [Prod.mk.injEq] at heq
    obtain ⟨⟨rfl, _⟩, rfl⟩ := heq
    split_ifs with hl
    · simp only
      rcases Nat.lt_or_ge 1 line.length with h1 | h1
      · left
        simp only [List.length_cons]
        omega
      · right
        obtain ⟨a, rfl⟩ : ∃ a, line = [a] := by
          match line, hl.1, h1 with
          | [a], _, _ => exact ⟨a, rfl⟩
        simp only [List.getLast?_singleton, Option.some.injEq] at hl
        simp only [List.singleton_append] at hdata
        simp [hl.2, ← hdata]
    · simp only
      rcases Nat.eq_zero_or_pos line.length with h0 | h0
      · right
        have : line = [] := List.length_eq_zero.mp h0
        subst this
        simp only [List.nil_append] at hdata
        simp [hdata]
      · left
        omega
  · rename_i line' serr' r1' hnot heq
    simp only [Prod.mk.injEq] at heq
    obtain ⟨⟨rfl, rfl⟩, rfl⟩ := heq
    by_cases hl : line.length = 0
    · rw [if_pos hl] at h
      simp only at h
      exact absurd (List.length_eq_zero.mp hl) (hne h)
    · left
      have : 0 < line.length := Nat.pos_of_ne_zero hl
      rw [if_neg hl]
      split_ifs <;> simp only <;> omega

/-- A reader on which `ReadLine` returns an empty line, no error and the same state yields no
finite sequence of lines followed by an error. -/
theorem not_Yields_of_stuck (r : ReaderState) (e : GoError)
    (h : bufio.ReadLine r = (([], true, none), r)) : ∀ ls, ¬ Reader.Yields r ls e
  | [] => by simp [Reader.Yields, h]
  | l :: ls => by
    intro hy
    simp only [Reader.Yields, h] at hy
    exact not_Yields_of_stuck r e h ls hy.2.2

/-- A reader yields no more lines than its source holds bytes. -/
theorem Yields_length_le (e : GoError) :
    ∀ (ls : List (List Nat)) (r : ReaderState), Reader.Yields r ls e →
      ls.length ≤ r.data.length
  | [], _, _ => Nat.zero_le _
  | l :: ls, r, hy => by
    have hy' := hy
    simp only [Reader.Yields] at hy
    rcases ReadLine_progress r hy.2.1 with hp | hp
    · have := Yields_length_le e ls _ hy.2.2
      simp only [List.length_cons]
      omega
    · exact absurd hy' (not_Yields_of_stuck r e hp _)

theorem Yields_afterLines (e : GoError) :
    ∀ (a b : List (List Nat)) (r : ReaderState), Reader.Yields r (a ++ b) e →
      Reader.Yields (Reader.afterLines a.length r) b e
  | [], _, _, h => h
  | l :: a, b, r, h => by
    simp only [List.cons_append, Reader.Yields] at h
    exact Yields_afterLines e a b _ h.2.2

theorem isPassingLine_false_iff (msg : List Nat) :
    (msg.length = 0 ∨ msg.head? ≠ some PassingPrefix) ↔ isPassingLine msg = false := by
  cases msg with
  | nil => simp [isPassingLine]
  | cons a t => simp [isPassingLine]

theorem isNoiseLine_false_iff (msg : List Nat) :
    (msg.length = 0 ∨ msg.head? ≠ some NoisePrefix) ↔ isNoiseLine msg = false := by
  cases msg with
  | nil => simp [isNoiseLine]
  | cons a t => simp [isNoiseLine]

/-- The loop of `ReadPassing` on a reader that yields the lines `ls` and then `e`. -/
theorem readPassingLoop_of_Yields (e : GoError) :
    ∀ (ls : List (List Nat)) (r : ReaderState) (fuel : Nat) (msg : List Nat),
      isPassingLine msg = false → Reader.Yields r ls e → ls.length + 2 ≤ fuel →
      Reader.readPassingLoop fuel msg r =
        some ((match ls.find? isPassingLine with
          | some l => UnmarshalPassing l
          | none => (Passing.zero, some e)),
          Reader.afterLines (Reader.linesUsed isPassingLine ls) r)
  | [], r, fuel, msg, hm, hy, hf => by
    obtain ⟨k, rfl⟩ : ∃ k, fuel = k + 1 := ⟨fuel - 1, by simp at hf; omega⟩
    simp only [Reader.Yields] at hy
    rcases hr : bufio.ReadLine r with ⟨⟨line, p, err⟩, r1⟩
    rw [hr] at hy
    simp only at hy
    subst hy
    rw [Reader.readPassingLoop, if_pos ((isPassingLine_false_iff msg).mpr hm), hr]
    simp [Reader.linesUsed, Reader.afterLines, Passing.zero, hr]
  | l :: ls, r, fuel, msg, hm, hy, hf => by
    obtain ⟨k, rfl⟩ : ∃ k, fuel = k + 1 := ⟨fuel - 1, by simp at hf; omega⟩
    simp only [Reader.Yields] at hy
    rcases hr : bufio.ReadLine r with ⟨⟨line, p, err⟩, r1⟩
    rw [hr] at hy
    simp only at hy
    obtain ⟨rfl, rfl, hy⟩ := hy
    rw [Reader.readPassingLoop, if_pos ((isPassingLine_false_iff msg).mpr hm), hr]
    simp only
    by_cases hl : isPassingLine line = true
    · obtain ⟨j, rfl⟩ : ∃ j, k = j + 1 := ⟨k - 1, by simp at hf; omega⟩
      have hc : ¬ (line.length = 0 ∨ line.head? ≠ some PassingPrefix) := by
        rw [isPassingLine_false_iff]; simp [hl]
      rw [Reader.readPassingLoop, if_neg hc]
      simp [List.find?, hl, Reader.linesUsed, Reader.afterLines, hr]
    · simp only [Bool.not_eq_true] at hl
      rw [readPassingLoop_of_Yields e ls r1 k line hl hy (by simp at hf; omega)]
      simp [List.find?, hl, Reader.linesUsed, Reader.afterLines, hr]

/-- The loop of `ReadNoise` on a reader that yields the lines `ls` and then `e`. -/
theorem readNoiseLoop_of_Yields (e : GoError) :
    ∀ (ls : List (List Nat)) (r : ReaderState) (fuel : Nat) (msg : List Nat),
      isNoiseLine msg = false → Reader.Yields r ls e → ls.length + 2 ≤ fuel →
      Reader.readNoiseLoop fuel msg r =
        some ((match ls.find? isNoiseLine with
          | some l => UnmarshalNoise l
          | none => (0, some e)),
          Reader.afterLines (Reader.linesUsed isNoiseLine ls) r)
  | [], r, fuel, msg, hm, hy, hf => by
    obtain ⟨k, rfl⟩ : ∃ k, fuel = k + 1 := ⟨fuel - 1, by simp at hf; omega⟩
    simp only [Reader.Yields] at hy
    rcases hr : bufio.ReadLine r with ⟨⟨line, p, err⟩, r1⟩
    rw [hr] at hy
    simp only at hy
    subst hy
    rw [Reader.readNoiseLoop, if_pos ((isNoiseLine_false_iff msg).mpr hm), hr]
    simp [Reader.linesUsed, Reader.afterLines, hr]
  | l :: ls, r, fuel, msg, hm, hy, hf => by
    obtain ⟨k, rfl⟩ : ∃ k, fuel = k + 1 := ⟨fuel - 1, by simp at hf; omega⟩
    simp only [Reader.Yields] at hy
    rcases hr : bufio.ReadLine r with ⟨⟨line, p, err⟩, r1⟩
    rw [hr] at hy
    simp only at hy
    obtain ⟨rfl, rfl, hy⟩ := hy
    rw [Reader.readNoiseLoop, if_pos ((isNoiseLine_false_iff msg).mpr hm), hr]
    simp only
    by_cases hl : isNoiseLine line = true
    · obtain ⟨j, rfl⟩ : ∃ j, k = j + 1 := ⟨k - 1, by simp at hf; omega⟩
      have hc : ¬ (line.length = 0 ∨ line.head? ≠ some NoisePrefix) := by
        rw [isNoiseLine_false_iff]; simp [hl]
      rw [Reader.readNoiseLoop, if_neg hc]
      simp [List.find?, hl, Reader.linesUsed, Reader.afterLines, hr]
    · simp only [Bool.not_eq_true] at hl
      rw [readNoiseLoop_of_Yields e ls r1 k line hl hy (by simp at hf; omega)]
      simp [List.find?, hl, Reader.linesUsed, Reader.afterLines, hr]

/-- `ReadPassing` on a reader that yields the lines `ls` and then `e`. -/
theorem ReadPassing_of_Yields (r : ReaderState) (ls : List (List Nat)) (e : GoError)
    (hy : Reader.Yields r ls e) :
    Reader.ReadPassing r =
      some ((match ls.find? isPassingLine with
        | some l => UnmarshalPassing l
        | none => (Passing.zero, some e)),
        Reader.afterLines (Reader.linesUsed isPassingLine ls) r) := by
  have := Yields_length_le e ls r hy
  exact readPassingLoop_of_Yields e ls r _ [] (by rfl) hy (by omega)

/-- `ReadNoise` on a reader that yields the lines `ls` and then `e`. -/
theorem ReadNoise_of_Yields (r : ReaderState) (ls : List (List Nat)) (e : GoError)
    (hy : Reader.Yields r ls e) :
    Reader.ReadNoise r =
      some ((match ls.find? isNoiseLine with
        | some l => UnmarshalNoise l
        | none => (0, some e)),
        Reader.afterLines (Reader.linesUsed isNoiseLine ls) r) := by
  have := Yields_length_le e ls r hy
  exact readNoiseLoop_of_Yields e ls r _ [] (by rfl) hy (by omega)

/-! ## Lines on the wire -/

/-- `ReadLine` on a line of 4095 bytes that ends in `"\r\n"`: the buffer fills with the line
and its `'\r'`, the line is returned as a prefix and the `'\r'` is put back. -/
theorem ReadLine_full (line rest : List Nat) (e : GoError) (h : ∀ b ∈ line, b ≠ 10)
    (hl : line.length + 1 = bufio.defaultBufSize) :
    bufio.ReadLine ⟨line ++ 13 :: 10 :: rest, e⟩ =
      ((line, true, none), ⟨13 :: 10 :: rest, e⟩) := by
  have hsplit : line ++ 13 :: 10 :: rest = (line ++ [13]) ++ 10 :: rest := by simp
  have hlen : (line ++ [13]).length = bufio.defaultBufSize := by simp [hl]
  have hw : (line ++ 13 :: 10 :: rest).take bufio.defaultBufSize = line ++ [13] := by
    rw [hsplit]; exact List.take_left' hlen
  have hd : (line ++ 13 :: 10 :: rest).drop bufio.defaultBufSize = 10 :: rest := by
    rw [hsplit]; exact List.drop_left' hlen
  have htw : (line ++ [13]).takeWhile (fun b => decide (b ≠ 10)) = line ++ [13] := by
    rw [List.takeWhile_eq_self_iff]
    intro x hx
    rcases List.mem_append.mp hx with hx | hx
    · simpa using h x hx
    · simp at hx; simp [hx]
  have hs : bufio.ReadSlice 10 ⟨line ++ 13 :: 10 :: rest, e⟩ =
      ((line ++ [13], some .ErrBufferFull), ⟨10 :: rest, e⟩) := by
    simp only [bufio.ReadSlice, hw, htw, hd, lt_irrefl, if_false]
    rw [if_neg (by simp [← hl])]
  simp only [bufio.ReadLine, hs]
  simp

theorem find?_readerLines (p : List Nat → Bool) (hp : p [] = false) :
    ∀ lines : List (List Nat), (readerLines lines).find? p = lines.find? p
  | [] => rfl
  | l :: lines => by
    simp only [readerLines]
    split_ifs
    · simp only [List.find?_cons, find?_readerLines p hp lines]
    · simp only [List.find?_cons, hp, find?_readerLines p hp lines]

theorem dispatchAll_readerLines :
    ∀ lines : List (List Nat), dispatchAll (readerLines lines) = dispatchAll lines
  | [] => rfl
  | l :: lines => by
    simp only [readerLines]
    split_ifs
    · simp only [dispatchAll, dispatchAll_readerLines lines]
    · simp only [dispatchAll, dispatchLine, List.nil_append, dispatchAll_readerLines lines]

/-- Lines without `'\n'` and shorter than the buffer, each followed by `"\r\n"` on the wire
and followed by the error `e` of the source, are what `ReadLine` returns, an empty line
coming after each line of 4095 bytes. -/
theorem Yields_wire (e : GoError) (he : e ≠ .ErrBufferFull) :
    ∀ lines : List (List Nat), (∀ l ∈ lines, 10 ∉ l ∧ l.length < bufio.defaultBufSize) →
      Reader.Yields ⟨wire lines, e⟩ (readerLines lines) e
  | [], _ => by
    simp only [wire, readerLines, Reader.Yields, ReadLine_nil e he]
  | l :: lines, h => by
    have hl := h l (List.mem_cons_self _ _)
    have hne : ∀ b ∈ l, b ≠ 10 := fun b hb hb10 => hl.1 (hb10 ▸ hb)
    have ih := Yields_wire e he lines (fun x hx => h x (List.mem_cons_of_mem _ hx))
    simp only [wire, readerLines]
    split_ifs with hlt
    · simp only [Reader.Yields, ReadLine_crlf l (wire lines) e hne hlt]
      exact ⟨trivial, trivial, ih⟩
    · have hfull : l.length + 1 = bufio.defaultBufSize := by omega
      have h2 := ReadLine_crlf [] (wire lines) e (by simp) (by decide)
      simp only [List.nil_append] at h2
      simp only [Reader.Yields, ReadLine_full l (wire lines) e hne hfull, h2]
      exact ⟨trivial, trivial, trivial, trivial, ih⟩

/-! ## The filtering reader: claims C13 and C14 -/

theorem find?_first_match (p : List Nat → Bool) (l : List Nat) (post : List (List Nat))
    (hl : p l = true) :
    ∀ pre : List (List Nat), (∀ x ∈ pre, p x = false) →
      (pre ++ l :: post).find? p = some l ∧
      Reader.linesUsed p (pre ++ l :: post) = pre.length + 1
  | [], _ => by simp [List.find?, Reader.linesUsed, hl]
  | x :: pre, h => by
    have hx := h x (List.mem_cons_self _ _)
    have ih := find?_first_match p l post hl pre (fun y hy => h y (List.mem_cons_of_mem _ hy))
    simp [List.find?, Reader.linesUsed, hx, ih.1, ih.2]

/-- C13: for lines without `'\n'`, each shorter than the buffer of the reader and followed
by `"\r\n"`, and then the end of the stream, `ReadPassing` returns what `UnmarshalPassing`
returns on the first line that is not empty and starts with `'$'`, whatever lines come
before it, and when there is no such line it returns `io.EOF` itself, with the zero record;
`ReadNoise` does the same with `'#'` and `UnmarshalNoise`. -/
theorem C13_first_matching_line (lines : List (List Nat))
    (h : ∀ l ∈ lines, 10 ∉ l ∧ l.length < bufio.defaultBufSize) :
    (Reader.ReadPassing ⟨wire lines, .EOF⟩).map Prod.fst =
      some (match lines.find? isPassingLine with
        | some l => UnmarshalPassing l
        | none => (Passing.zero, some .EOF)) ∧
    (Reader.ReadNoise ⟨wire lines, .EOF⟩).map Prod.fst =
      some (match lines.find? isNoiseLine with
        | some l => UnmarshalNoise l
        | none => (0, some .EOF)) := by
  have hy := Yields_wire .EOF (by decide) lines h
  constructor
  · rw [ReadPassing_of_Yields _ _ _ hy, find?_readerLines isPassingLine (by rfl)]
    rfl
  · rw [ReadNoise_of_Yields _ _ _ hy, find?_readerLines isNoiseLine (by rfl)]
    rfl

/-- C13 at the lines `#0970`, an empty line, `X`, `$09M00235BF3036E021358700` and
`$09000235BF3436E021358700`. -/
theorem C13_first_matching_line_witness :
    (Reader.ReadPassing ⟨wire [[35, 48, 57, 55, 48], [], [88], badPrefixLine, testLine1],
        .EOF⟩).map Prod.fst =
      some (match [[35, 48, 57, 55, 48], [], [88], badPrefixLine, testLine1].find?
          isPassingLine with
        | some l => UnmarshalPassing l
        | none => (Passing.zero, some .EOF)) ∧
    (Reader.ReadNoise ⟨wire [[35, 48, 57, 55, 48], [], [88], badPrefixLine, testLine1],
        .EOF⟩).map Prod.fst =
      some (match [[35, 48, 57, 55, 48], [], [88], badPrefixLine, testLine1].find?
          isNoiseLine with
        | some l => UnmarshalNoise l
        | none => (0, some .EOF)) :=
  C13_first_matching_line [[35, 48, 57, 55, 48], [], [88], badPrefixLine, testLine1]
    (by decide)

/-- C14: on a reader that yields the lines `pre`, then the line `l`, then the lines `post`,
where `l` is the first line that starts with `'$'`, `ReadPassing` returns what
`UnmarshalPassing` returns on `l`, error or not, and leaves a reader that yields exactly the
lines `post`: the lines of `pre` are gone, and the next `ReadPassing` and `ReadNoise` answer
from `post` alone. `ReadNoise` does the same with `'#'` and `UnmarshalNoise`. -/
theorem C14_consumes_through_match (r : ReaderState) (pre post : List (List Nat))
    (l : List Nat) (e : GoError) (hy : Reader.Yields r (pre ++ l :: post) e) :
    ((∀ x ∈ pre, isPassingLine x = false) → isPassingLine l = true →
      ∃ r1, Reader.ReadPassing r = some (UnmarshalPassing l, r1) ∧
        r1 = Reader.afterLines (pre.length + 1) r ∧ Reader.Yields r1 post e ∧
        (Reader.ReadPassing r1).map Prod.fst =
          some (match post.find? isPassingLine with
            | some l => UnmarshalPassing l
            | none => (Passing.zero, some e)) ∧
        (Reader.ReadNoise r1).map Prod.fst =
          some (match post.find? isNoiseLine with
            | some l => UnmarshalNoise l
            | none => (0, some e))) ∧
    ((∀ x ∈ pre, isNoiseLine x = false) → isNoiseLine l = true →
      ∃ r1, Reader.ReadNoise r = some (UnmarshalNoise l, r1) ∧
        r1 = Reader.afterLines (pre.length + 1) r ∧ Reader.Yields r1 post e ∧
        (Reader.ReadPassing r1).map Prod.fst =
          some (match post.find? isPassingLine with
            | some l => UnmarshalPassing l
            | none => (Passing.zero, some e)) ∧
        (Reader.ReadNoise r1).map Prod.fst =
          some (match post.find? isNoiseLine with
            | some l => UnmarshalNoise l
            | none => (0, some e))) := by
  have hpost : Reader.Yields (Reader.afterLines (pre.length + 1) r) post e := by
    have := Yields_afterLines e (pre ++ [l]) post r (by simpa using hy)
    simpa using this
  constructor
  · intro hpre hl
    obtain ⟨hf, hu⟩ := find?_first_match isPassingLine l post hl pre hpre
    refine ⟨_, ?_, rfl, hpost, ?_, ?_⟩
    · rw [ReadPassing_of_Yields r _ e hy, hf, hu]
    · rw [ReadPassing_of_Yields _ _ e hpost]; rfl
    · rw [ReadNoise_of_Yields _ _ e hpost]; rfl
  · intro hpre hl
    obtain ⟨hf, hu⟩ := find?_first_match isNoiseLine l post hl pre hpre
    refine ⟨_, ?_, rfl, hpost, ?_, ?_⟩
    · rw [ReadNoise_of_Yields r _ e hy, hf, hu]
    · rw [ReadPassing_of_Yields _ _ e hpost]; rfl
    · rw [ReadNoise_of_Yields _ _ e hpost]; rfl

/-- C14 at the lines `#0970`, `$09M00235BF3036E021358700`, `#0970`,
`$09000235BF3436E021358700` followed by `io.EOF`: `ReadPassing` skips the first line, returns
the error of the second, and leaves the last two. -/
theorem C14_consumes_through_match_witness :
    ∃ r1, Reader.ReadPassing
        ⟨wire [[35, 48, 57, 55, 48], badPrefixLine, [35, 48, 57, 55, 48], testLine1], .EOF⟩ =
        some (UnmarshalPassing badPrefixLine, r1) ∧
      r1 = Reader.afterLines 2
        ⟨wire [[35, 48, 57, 55, 48], badPrefixLine, [35, 48, 57, 55, 48], testLine1], .EOF⟩ ∧
      Reader.Yields r1 [[35, 48, 57, 55, 48], testLine1] .EOF ∧
      (Reader.ReadPassing r1).map Prod.fst =
        some (match [[35, 48, 57, 55, 48], testLine1].find? isPassingLine with
          | some l => UnmarshalPassing l
          | none => (Passing.zero, some .EOF)) ∧
      (Reader.ReadNoise r1).map Prod.fst =
        some (match [[35, 48, 57, 55, 48], testLine1].find? isNoiseLine with
          | some l => UnmarshalNoise l
          | none => (0, some .EOF)) :=
  (C14_consumes_through_match
    ⟨wire [[35, 48, 57, 55, 48], badPrefixLine, [35, 48, 57, 55, 48], testLine1], .EOF⟩
    [[35, 48, 57, 55, 48]] [[35, 48, 57, 55, 48], testLine1] badPrefixLine .EOF
    (by decide)).1 (by decide) (by rfl)

/-! ## The serve loop: claims C15 and C16 -/

/-- One turn of the loop of `Client.Serve` on a line read without error: the calls of the
line are added and the loop goes on. -/
theorem serveLoop_step (fuel : Nat) (r r1 : ReaderState) (line : List Nat) (p : Bool)
    (calls : List HandlerCall) (hr : bufio.ReadLine r = ((line, p, none), r1)) :
    Client.serveLoop (fuel + 1) r calls =
      Client.serveLoop fuel r1 (calls ++ dispatchLine line) := by
  rw [Client.serveLoop, hr]
  simp only
  cases line with
  | nil => simp [dispatchLine]
  | cons c t =>
    rw [if_neg (by simp)]
    simp only [List.head?_cons, Option.some.injEq, NoisePrefix, PassingPrefix, dispatchLine]
    by_cases h35 : c = 35
    · rw [if_pos h35, if_pos h35]
      rcases hu : UnmarshalNoise (c :: t) with ⟨n, _ | err⟩ <;> rfl
    · rw [if_neg h35, if_neg h35]
      by_cases h36 : c = 36
      · rw [if_pos h36, if_pos h36]
        rcases hu : UnmarshalPassing (c :: t) with ⟨n, _ | err⟩ <;> rfl
      · rw [if_neg h36, if_neg h36, List.append_nil]

/-- The loop of `Client.Serve` on a reader that yields the lines `ls` and then `e`. -/
theorem serveLoop_of_Yields (e : GoError) :
    ∀ (ls : List (List Nat)) (r : ReaderState) (fuel : Nat) (calls : List HandlerCall),
      Reader.Yields r ls e → ls.length + 1 ≤ fuel →
      Client.serveLoop fuel r calls =
        some (calls ++ dispatchAll ls, e, Reader.afterLines (ls.length + 1) r)
  | [], r, fuel, calls, hy, hf => by
    obtain ⟨k, rfl⟩ : ∃ k, fuel = k + 1 := ⟨fuel - 1, by simp at hf; omega⟩
    simp only [Reader.Yields] at hy
    rcases hr : bufio.ReadLine r with ⟨⟨line, p, err⟩, r1⟩
    rw [hr] at hy
    simp only at hy
    subst hy
    rw [Client.serveLoop, hr]
    simp [dispatchAll, Reader.afterLines, hr]
  | l :: ls, r, fuel, calls, hy, hf => by
    obtain ⟨k, rfl⟩ : ∃ k, fuel = k + 1 := ⟨fuel - 1, by simp at hf; omega⟩
    simp only [Reader.Yields] at hy
    rcases hr : bufio.ReadLine r with ⟨⟨line, p, err⟩, r1⟩
    rw [hr] at hy
    simp only at hy
    obtain ⟨rfl, rfl, hy⟩ := hy
    rw [serveLoop_step k r r1 line p calls hr,
      serveLoop_of_Yields e ls r1 k _ hy (by simp at hf; omega)]
    simp [dispatchAll, Reader.afterLines, hr]

/-- `Client.Serve` on a reader that yields the lines `ls` and then `e`. -/
theorem Serve_of_Yields (r : ReaderState) (ls : List (List Nat)) (e : GoError)
    (hy : Reader.Yields r ls e) :
    Client.Serve r = some (dispatchAll ls, e, Reader.afterLines (ls.length + 1) r) := by
  have := Yields_length_le e ls r hy
  rw [Client.Serve, serveLoop_of_Yields e ls r _ [] hy (by omega), List.nil_append]

/-- `Client.Serve` on lines without `'\n'`, each shorter than the buffer and followed by
`"\r\n"` on the wire, and then the error `e` of the source. -/
theorem Serve_wire (lines : List (List Nat)) (e : GoError) (he : e ≠ .ErrBufferFull)
    (h : ∀ l ∈ lines, 10 ∉ l ∧ l.length < bufio.defaultBufSize) :
    (Client.Serve ⟨wire lines, e⟩).map (fun res => (res.1, res.2.1)) =
      some (dispatchAll lines, e) := by
  rw [Serve_of_Yields _ _ e (Yields_wire e he lines h), Option.map_some',
    dispatchAll_readerLines]

theorem dispatchAll_append :
    ∀ a b : List (List Nat), dispatchAll (a ++ b) = dispatchAll a ++ dispatchAll b
  | [], _ => rfl
  | l :: a, b => by
    rw [List.cons_append, dispatchAll, dispatchAll, dispatchAll_append a b, List.append_assoc]

theorem dispatchLine_of_FailsToDecode (l : List Nat) (err : GoError)
    (h : FailsToDecode l err) : dispatchLine l = [.OnError err] := by
  cases l with
  | nil => simp [FailsToDecode, isNoiseLine, isPassingLine] at h
  | cons c t =>
    simp only [FailsToDecode, isNoiseLine, isPassingLine, List.head?_cons, beq_iff_eq,
      Option.some.injEq, NoisePrefix, PassingPrefix] at h
    rcases h with ⟨hc, hu⟩ | ⟨hc, hu⟩
    · subst hc
      rcases hv : UnmarshalNoise (35 :: t) with ⟨n, _ | err1⟩
      · rw [hv] at hu; simp at hu
      · rw [hv] at hu
        simp only [Option.some.injEq] at hu
        subst hu
        simp [dispatchLine, hv]
    · subst hc
      rcases hv : UnmarshalPassing (36 :: t) with ⟨n, _ | err1⟩
      · rw [hv] at hu; simp at hu
      · rw [hv] at hu
        simp only [Option.some.injEq] at hu
        subst hu
        simp [dispatchLine, hv]

theorem dispatchLine_length (l : List Nat) :
    (dispatchLine l).length = if isNoiseLine l || isPassingLine l then 1 else 0 := by
  cases l with
  | nil => rfl
  | cons c t =>
    simp only [dispatchLine, isNoiseLine, isPassingLine, List.head?_cons, NoisePrefix,
      PassingPrefix]
    by_cases h35 : c = 35
    · subst h35
      rcases hu : UnmarshalNoise (35 :: t) with ⟨n, _ | err⟩ <;> simp
    · by_cases h36 : c = 36
      · subst h36
        rcases hu : UnmarshalPassing (36 :: t) with ⟨n, _ | err⟩ <;> simp
      · simp [h35, h36]

/-- C15: when the connection yields the lines `ls` and then fails with `e`, the calls that
`Client.Serve` makes to the handler are those of the lines, line after line in the order of
the lines, where a line gives the calls of `dispatchLine`: none for an empty line or for
another first byte, `OnNoise` or `OnError` for `'#'`, `OnPassing` or `OnError` for `'$'`; so
one call for each line that starts with a marker and none for the others. -/
theorem C15_serve_dispatch (r : ReaderState) (ls : List (List Nat)) (e : GoError)
    (hy : Reader.Yields r ls e) :
    (Client.Serve r).map Prod.fst = some (dispatchAll ls) ∧
    (∀ l, (dispatchLine l).length = if isNoiseLine l || isPassingLine l then 1 else 0) ∧
    dispatchLine [] = [] ∧
    (∀ l n, isNoiseLine l = true → UnmarshalNoise l = (n, none) →
      dispatchLine l = [.OnNoise n]) ∧
    (∀ l n err, isNoiseLine l = true → UnmarshalNoise l = (n, some err) →
      dispatchLine l = [.OnError err]) ∧
    (∀ l rec0, isPassingLine l = true → UnmarshalPassing l = (rec0, none) →
      dispatchLine l = [.OnPassing rec0]) ∧
    (∀ l rec0 err, isPassingLine l = true → UnmarshalPassing l = (rec0, some err) →
      dispatchLine l = [.OnError err]) := by
  refine ⟨by rw [Serve_of_Yields r ls e hy]; rfl, dispatchLine_length, rfl, ?_, ?_, ?_, ?_⟩
  · intro l n hl hu
    cases l with
    | nil => simp [isNoiseLine] at hl
    | cons c t =>
      simp only [isNoiseLine, List.head?_cons, beq_iff_eq, Option.some.injEq, NoisePrefix] at hl
      subst hl
      simp [dispatchLine, hu]
  · intro l n err hl hu
    exact dispatchLine_of_FailsToDecode l err (Or.inl ⟨hl, by rw [hu]⟩)
  · intro l rec0 hl hu
    cases l with
    | nil => simp [isPassingLine] at hl
    | cons c t =>
      simp only [isPassingLine, List.head?_cons, beq_iff_eq, Option.some.injEq,
        PassingPrefix] at hl
      subst hl
      simp [dispatchLine, hu]
  · intro l rec0 err hl hu
    exact dispatchLine_of_FailsToDecode l err (Or.inr ⟨hl, by rw [hu]⟩)

/-- C15 at the input of `TestNewClient`. -/
theorem C15_serve_dispatch_witness :
    (Client.Serve ⟨clientInput, .EOF⟩).map Prod.fst = some (dispatchAll clientLines) :=
  (C15_serve_dispatch ⟨clientInput, .EOF⟩ clientLines .EOF
    (by decide)).1

/-- C16: when the connection yields the lines `ls` and then fails with `e`, `Client.Serve`
returns `e`, after it has read every line and made the calls of every line. A line that
fails to decode gives one `OnError` call and nothing else: the calls before it and after it
are those of the lines before it and after it, the same as on a connection that yields the
same lines without it, and the error returned is `e` in both cases. -/
theorem C16_serve_returns_source_error (r : ReaderState) (ls : List (List Nat))
    (e : GoError) (hy : Reader.Yields r ls e) :
    Client.Serve r = some (dispatchAll ls, e, Reader.afterLines (ls.length + 1) r) ∧
    (∀ (r2 : ReaderState) (pre post : List (List Nat)) (bad : List Nat) (err : GoError),
      ls = pre ++ bad :: post → FailsToDecode bad err → Reader.Yields r2 (pre ++ post) e →
      (Client.Serve r).map (fun res => (res.1, res.2.1)) =
        some (dispatchAll pre ++ [.OnError err] ++ dispatchAll post, e) ∧
      (Client.Serve r2).map (fun res => (res.1, res.2.1)) =
        some (dispatchAll pre ++ dispatchAll post, e)) := by
  refine ⟨Serve_of_Yields r ls e hy, ?_⟩
  intro r2 pre post bad err hls hbad hy2
  subst hls
  rw [Serve_of_Yields r _ e hy, Serve_of_Yields r2 _ e hy2]
  simp [dispatchAll_append, dispatchAll, dispatchLine_of_FailsToDecode bad err hbad]

/-- C16 at the input of `TestNewClient`. -/
theorem C16_serve_returns_source_error_witness :
    Client.Serve ⟨clientInput, .EOF⟩ =
      some (dispatchAll clientLines, .EOF,
        Reader.afterLines (clientLines.length + 1) ⟨clientInput, .EOF⟩) :=
  (C16_serve_returns_source_error ⟨clientInput, .EOF⟩ clientLines .EOF
    (by decide)).1

/-! ## Empty lines in `tranx2dump`: claim C20 -/

/-- C20, evaluated on the input `#0970\r\n\r\n#0970\r\n`, which holds an empty line between
two terminators: `main` of `tranx2dump` encodes the first noise value and then evaluates
`line[0]` on the empty line, which is an index out of range, so the second noise line is
never read; `Client.Serve` on the same input skips the empty line and reports both values.
On the input `\r\n` alone `main` ends in the same way without any output. -/
theorem C20_dump_indexes_empty_line :
    tranx2dump.main ⟨[35, 48, 57, 55, 48, 13, 10, 13, 10, 35, 48, 57, 55, 48, 13, 10], .EOF⟩ =
      some ([.EncodeNoise 2416], .IndexOutOfRange) ∧
    Client.Serve ⟨[35, 48, 57, 55, 48, 13, 10, 13, 10, 35, 48, 57, 55, 48, 13, 10], .EOF⟩ =
      some ([.OnNoise 2416, .OnNoise 2416], .EOF, ⟨[], .EOF⟩) ∧
    tranx2dump.main ⟨[13, 10], .EOF⟩ = some ([], .IndexOutOfRange) ∧
    Client.Serve ⟨[13, 10], .EOF⟩ = some ([], .EOF, ⟨[], .EOF⟩) := by
  refine ⟨by rfl, by rfl, by rfl, by rfl⟩

end Tranx2
